import Mathlib

/-!
# nepseStockScrapping: a verification development of `main.go`

The program scrapes the daily price table of the Nepal stock exchange, one page per calendar
day, and stores one `Stock` row per table row.  This file embeds the parts of `main.go` the
specification talks about and proves (or refutes) what the specification says about them.

Conventions of the embedding.

* Go `string`s are Lean `String`s (sequences of Unicode code points); the texts handled here come
  out of an HTML parser and are valid UTF-8, for which byte-wise and code-point-wise splitting on
  `U+00A0` coincide.
* Go `int` is the 64-bit signed integer; values are Lean `Int`s and the bounds are explicit.
* `float64` values are `Float64`: a sign, an odd mantissa and a binary exponent, or an infinity,
  or NaN.
* Functions of third-party libraries (`strconv`, `strings`, `time`, `fmt`, `colly`, `gorm`) are
  modelled by their documented behaviour; every such definition says so in its comment.
* A callback that can panic returns `Except`.
-/

namespace Nepse

/-! ## `strconv`: integers -/

/-- The two error kinds of a `strconv.NumError`. -/
inductive NumError where
  | ErrSyntax
  | ErrRange
deriving DecidableEq, Repr

/-- Value of an ASCII decimal digit. -/
def digitVal (c : Char) : Nat := c.toNat - 48

/-- Test `'0' <= c && c <= '9'`. -/
def isDigit (c : Char) : Bool := 48 ≤ c.toNat && c.toNat ≤ 57

/-- The largest `uint64`. -/
def maxUint64 : Nat := 18446744073709551615

/-- The largest `int64` (and `int`). -/
def maxInt64 : Int := 9223372036854775807

/-- The smallest `int64` (and `int`). -/
def minInt64 : Int := -9223372036854775808

/-- The digit loop of `strconv.ParseUint(s, 10, 64)` (library, modelled from its source): a
character that is not a decimal digit stops with a syntax error and value 0; an overflow stops
at once, before the rest of the text is looked at, with a range error and the largest
`uint64`. -/
def parseUintLoop : List Char → Nat → Nat × Option NumError
  | [], n => (n, none)
  | c :: cs, n =>
    if isDigit c then
      if n ≥ maxUint64 / 10 + 1 then (maxUint64, some NumError.ErrRange)
      else if n * 10 + digitVal c > maxUint64 then (maxUint64, some NumError.ErrRange)
      else parseUintLoop cs (n * 10 + digitVal c)
    else (0, some NumError.ErrSyntax)

/-- Library `strconv.ParseUint(s, 10, 64)`: the empty text is a syntax error. -/
def ParseUint (s : List Char) : Nat × Option NumError :=
  match s with
  | [] => (0, some NumError.ErrSyntax)
  | _ => parseUintLoop s 0

/-- The part of `strconv.ParseInt` after the sign has been picked off: `un, err` are the result
of `ParseUint` on the rest. -/
def parseIntSigned (neg : Bool) (r : Nat × Option NumError) : Int × Option NumError :=
  match r with
  | (_, some NumError.ErrSyntax) => (0, some NumError.ErrSyntax)
  | (un, _) =>
    if !neg && decide ((un : Int) ≥ maxInt64 + 1) then (maxInt64, some NumError.ErrRange)
    else if neg && decide ((un : Int) > maxInt64 + 1) then (minInt64, some NumError.ErrRange)
    else (if neg then -(un : Int) else (un : Int), none)

/-- Library `strconv.ParseInt(s, 10, 0)` on a 64-bit platform: an optional sign, then
`ParseUint`; a value outside the `int64` range gives the nearest bound together with a range
error. -/
def ParseInt (s : List Char) : Int × Option NumError :=
  match s with
  | [] => (0, some NumError.ErrSyntax)
  | c :: cs =>
    if c = '+' then parseIntSigned false (ParseUint cs)
    else if c = '-' then parseIntSigned true (ParseUint cs)
    else parseIntSigned false (ParseUint (c :: cs))

/-- Library `strconv.Atoi`: `ParseInt(s, 10, 0)` converted to `int` (its fast path for short
texts computes the same result). -/
def Atoi (s : String) : Int × Option NumError := ParseInt s.data

/-- The function `convInt` of `main.go`: `d, _ := strconv.Atoi(str); return d`. -/
def convInt (str : String) : Int := (Atoi str).1

/-! ## `strconv`: floating point -/

/-- A `float64` value: `finite neg m e` is `(-1)^neg * m * 2^e` with `m` odd (or `m = 0`, `e = 0`
for the two zeros); `inf neg` is the infinity of that sign. -/
inductive Float64 where
  | finite (neg : Bool) (mant : Nat) (exp : Int)
  | inf (neg : Bool)
  | nan
deriving DecidableEq, Repr

/-- The zero value of a Go `float64` variable, `+0`. -/
def Float64.zero : Float64 := Float64.finite false 0 0

/-- Strip the factors of two of a mantissa into the exponent; zero gets exponent 0. -/
def oddPart : Nat → Nat → Int → Nat × Int
  | 0, m, e => (m, e)
  | fuel + 1, m, e =>
    if m = 0 then (0, 0)
    else if m % 2 = 0 then oddPart fuel (m / 2) (e + 1)
    else (m, e)

/-- The `float64` whose value is exactly the natural number `n`, for `n` below `2^53`. -/
def Float64.ofNat (n : Nat) : Float64 :=
  Float64.finite false (oddPart 64 n 0).1 (oddPart 64 n 0).2

/-- Number of binary digits of `n`, by halving (`fuel` bounds the number of halvings). -/
def bitLen : Nat → Nat → Nat
  | 0, _ => 0
  | fuel + 1, n => if n = 0 then 0 else bitLen fuel (n / 2) + 1

/-- The nearest multiple `m * 2^p` of the unit in the last place to the fraction `n / d`
(`n, d > 0`), ties to the even `m`: 53 significant bits, and `p` not below `-1074` (the
subnormal numbers). -/
def roundMant (n d : Nat) : Nat × Int :=
  -- 2^(e0-1) < n/d < 2^(e0+1)
  let e0 : Int := (bitLen n n : Int) - (bitLen d d : Int)
  -- e = floor (log2 (n/d))
  let e : Int := if n <<< (-e0).toNat ≥ d <<< e0.toNat then e0 else e0 - 1
  let p : Int := max (e - 52) (-1074)
  let num := n <<< (-p).toNat
  let den := d <<< p.toNat
  let q := num / den
  let r := num % den
  (if 2 * r > den ∨ (2 * r = den ∧ q % 2 = 1) then q + 1 else q, p)

/-- The `float64` of sign `neg` and magnitude `m * 2^p` (`m` at most `2^53`): from `2^1024` on
it is the infinity together with a range error. -/
def packFloat (neg : Bool) (m : Nat) (p : Int) : Float64 × Option NumError :=
  if p > 971 ∨ (p = 971 ∧ m ≥ 9007199254740992) then (Float64.inf neg, some NumError.ErrRange)
  else (Float64.finite neg (oddPart 64 m p).1 (oddPart 64 m p).2, none)

/-- IEEE 754 binary64 rounding (to nearest, ties to even) of the exact fraction `n / d`, `d > 0`,
with the sign `neg`.  A result of magnitude `2^1024` or more is the infinity together with a
range error, as `strconv.ParseFloat` documents; underflow rounds silently, down to a zero. -/
def roundFrac (neg : Bool) (n d : Nat) : Float64 × Option NumError :=
  if n = 0 then (Float64.finite neg 0 0, none)
  else packFloat neg (roundMant n d).1 (roundMant n d).2

/-- Ten to the power `k`, by repeated multiplication. -/
def pow10 : Nat → Nat
  | 0 => 1
  | k + 1 => 10 * pow10 k

/-- Test `'a' <= lower(c) && lower(c) <= 'f'`. -/
def isHexLetter (c : Char) : Bool :=
  (97 ≤ c.toNat && c.toNat ≤ 102) || (65 ≤ c.toNat && c.toNat ≤ 70)

/-- Value `lower(c) - 'a' + 10` of a hexadecimal letter. -/
def hexLetterVal (c : Char) : Nat :=
  if 97 ≤ c.toNat then c.toNat - 97 + 10 else c.toNat - 65 + 10

/-- ASCII lower-casing of `'A'..'Z'`, as in `commonPrefixLenIgnoreCase`. -/
def lowerAZ (c : Char) : Char :=
  if 65 ≤ c.toNat ∧ c.toNat ≤ 90 then Char.ofNat (c.toNat + 32) else c

/-- Library `strconv.commonPrefixLenIgnoreCase(s, pre)`; `pre` is lower case. -/
def commonPrefixLenIgnoreCase : List Char → List Char → Nat
  | c :: cs, p :: ps => if lowerAZ c = p then commonPrefixLenIgnoreCase cs ps + 1 else 0
  | _, _ => 0

/-- The common part of `strconv.special` for an infinity: `s` is the text after the sign,
`nsign` the length of the sign. -/
def specialInf (neg : Bool) (nsign : Nat) (s : List Char) : Option (Float64 × Nat) :=
  let n := commonPrefixLenIgnoreCase s "infinity".data
  let n := if 3 < n ∧ n < 8 then 3 else n
  if n = 3 ∨ n = 8 then some (Float64.inf neg, nsign + n) else none

/-- Library `strconv.special`: the texts `inf`, `infinity` (optionally signed) and `nan`
(unsigned), case ignored, at the start of `s`; the result carries the number of characters
read. -/
def special (s : List Char) : Option (Float64 × Nat) :=
  match s with
  | [] => none
  | c :: cs =>
    if c = '+' then specialInf false 1 cs
    else if c = '-' then specialInf true 1 cs
    else if c = 'i' ∨ c = 'I' then specialInf false 0 (c :: cs)
    else if c = 'n' ∨ c = 'N' then
      if commonPrefixLenIgnoreCase (c :: cs) "nan".data = 3 then some (Float64.nan, 3) else none
    else none

/-- The running state of the mantissa loop of `strconv.readFloat`.  `mant` holds every
significant digit (the library keeps at most 19 in a machine word and goes back to the text
when that is not enough; the value it rounds is the exact one). -/
structure MantState where
  mant : Nat
  nd : Nat
  dp : Int
  sawdot : Bool
  sawdigits : Bool
  underscores : Bool
deriving DecidableEq, Repr

/-- The mantissa loop of `strconv.readFloat`; returns the state and the unread text. -/
def readMantissa (hex : Bool) : List Char → MantState → MantState × List Char
  | [], st => (st, [])
  | c :: cs, st =>
    if c = '_' then readMantissa hex cs { st with underscores := true }
    else if c = '.' then
      if st.sawdot then (st, c :: cs)
      else readMantissa hex cs { st with sawdot := true, dp := st.nd }
    else if isDigit c then
      if c = '0' ∧ st.nd = 0 then
        readMantissa hex cs { st with sawdigits := true, dp := st.dp - 1 }
      else
        readMantissa hex cs { st with
          sawdigits := true, nd := st.nd + 1,
          mant := st.mant * (if hex then 16 else 10) + digitVal c }
    else if hex && isHexLetter c then
      readMantissa hex cs { st with
        sawdigits := true, nd := st.nd + 1, mant := st.mant * 16 + hexLetterVal c }
    else (st, c :: cs)

/-- The digit loop of the exponent in `strconv.readFloat`: digits and underscores, the value
no longer grows once it has reached 10000. -/
def readExpDigits : List Char → Nat → Bool → Nat × Bool × List Char
  | [], e, us => (e, us, [])
  | c :: cs, e, us =>
    if c = '_' then readExpDigits cs e true
    else if isDigit c then readExpDigits cs (if e < 10000 then e * 10 + digitVal c else e) us
    else (e, us, c :: cs)

/-- What `strconv.readFloat` hands on after a successful read: sign, base, the digits, the
position of the point in them (`dp`, in bits for base 16), whether an underscore was seen and
the unread text. -/
structure FloatLit where
  neg : Bool
  hex : Bool
  mant : Nat
  nd : Nat
  dp : Int
  underscores : Bool
  rest : List Char
deriving DecidableEq, Repr

/-- The exponent part of `strconv.readFloat`, after the mantissa `st` was read up to `rest`. -/
def readExponent (neg hex : Bool) (st : MantState) (rest : List Char) : Option FloatLit :=
  let dp : Int := if st.sawdot then st.dp else st.nd
  let dp : Int := if hex then dp * 4 else dp
  let nd : Nat := if hex then st.nd * 4 else st.nd
  let isExpChar (c : Char) : Bool := if hex then c = 'p' || c = 'P' else c = 'e' || c = 'E'
  match rest with
  | c :: cs =>
    if isExpChar c then
      match cs with
      | [] => none
      | c1 :: cs1 =>
        let esign : Int := if c1 = '-' then -1 else 1
        let ds := if c1 = '+' ∨ c1 = '-' then cs1 else c1 :: cs1
        match ds with
        | [] => none
        | c2 :: _ =>
          if isDigit c2 then
            let r := readExpDigits ds 0 st.underscores
            some ⟨neg, hex, st.mant, nd, dp + r.1 * esign, r.2.1, r.2.2⟩
          else none
    else if hex then none
    else some ⟨neg, hex, st.mant, nd, dp, st.underscores, rest⟩
  | [] =>
    if hex then none
    else some ⟨neg, hex, st.mant, nd, dp, st.underscores, []⟩

/-- The part of `strconv.readFloat` after the optional sign: the base prefix `0x` (which needs
a character after it), the mantissa, the exponent. -/
def readUnsigned (neg : Bool) (s : List Char) : Option FloatLit :=
  let hex : Bool :=
    match s with
    | c0 :: c1 :: _ :: _ => c0 = '0' && (c1 = 'x' || c1 = 'X')
    | _ => false
  let body := if hex then s.drop 2 else s
  let r := readMantissa hex body ⟨0, 0, 0, false, false, false⟩
  if r.1.sawdigits then readExponent neg hex r.1 r.2 else none

/-- Library `strconv.readFloat` without its final underscore check (made by `atof64` below). -/
def readFloat (s : List Char) : Option FloatLit :=
  match s with
  | [] => none
  | c :: cs =>
    if c = '+' then readUnsigned false cs
    else if c = '-' then readUnsigned true cs
    else readUnsigned false (c :: cs)

/-- The loop of `strconv.underscoreOK`; `saw` is the kind of the last character: `'0'` for a
digit or base prefix, `'_'` for an underscore, `'!'` otherwise, `'^'` at the start. -/
def underscoreLoop (hex : Bool) : List Char → Char → Bool
  | [], saw => saw ≠ '_'
  | c :: cs, saw =>
    if isDigit c || (hex && isHexLetter c) then underscoreLoop hex cs '0'
    else if c = '_' then
      if saw ≠ '0' then false else underscoreLoop hex cs '_'
    else if saw = '_' then false
    else underscoreLoop hex cs '!'

/-- Library `strconv.underscoreOK`: an underscore stands only between digits or between a base
prefix and a digit. -/
def underscoreOK (s : List Char) : Bool :=
  let s :=
    match s with
    | c :: cs => if c = '-' ∨ c = '+' then cs else c :: cs
    | [] => []
  match s with
  | c0 :: c1 :: cs =>
    if c0 = '0' && (c1 = 'b' || c1 = 'B' || c1 = 'o' || c1 = 'O' || c1 = 'x' || c1 = 'X') then
      underscoreLoop (c1 = 'x' || c1 = 'X') cs '0'
    else underscoreLoop false (c0 :: c1 :: cs) '^'
  | _ => underscoreLoop false s '^'

/-- The exact value of a literal, rounded: `mant * 10^(dp - nd)` in base 10 and
`mant * 2^(dp - nd)` in base 16. -/
def FloatLit.round (l : FloatLit) : Float64 × Option NumError :=
  let x : Int := l.dp - l.nd
  if l.hex then
    if x ≥ 0 then roundFrac l.neg (l.mant <<< x.toNat) 1
    else roundFrac l.neg l.mant (1 <<< (-x).toNat)
  else
    if x ≥ 0 then roundFrac l.neg (l.mant * pow10 x.toNat) 1
    else roundFrac l.neg l.mant (pow10 (-x).toNat)

/-- Library `strconv.atof64` (through `parseFloatPrefix`): value, number of characters read,
error.  A text that is not a number gives value `+0` and a syntax error. -/
def atof64 (s : List Char) : Float64 × Nat × Option NumError :=
  match special s with
  | some (v, n) => (v, n, none)
  | none =>
    match readFloat s with
    | none => (Float64.zero, 0, some NumError.ErrSyntax)
    | some l =>
      let n := s.length - l.rest.length
      if l.underscores && !underscoreOK (s.take n) then (Float64.zero, n, some NumError.ErrSyntax)
      else (l.round.1, n, l.round.2)

/-- Library `strconv.ParseFloat(s, 64)`: a number followed by anything else is a syntax error
with value `+0`. -/
def ParseFloat (s : String) : Float64 × Option NumError :=
  let r := atof64 s.data
  if r.2.1 ≠ s.data.length ∧ r.2.2 ≠ some NumError.ErrSyntax then
    (Float64.zero, some NumError.ErrSyntax)
  else (r.1, r.2.2)

/-- The function `convFloat` of `main.go`: `d, _ := strconv.ParseFloat(str, 64); return d`. -/
def convFloat (str : String) : Float64 := (ParseFloat str).1

/-! ## `strings` -/

/-- Library `strings.TrimPrefix(s, pre)`: `s` without the leading `pre`, or `s` itself when it
does not start with `pre`. -/
def stringsTrimPrefix (s pre : String) : String :=
  if pre.data.isPrefixOf s.data then String.mk (s.data.drop pre.data.length) else s

/-- The pieces of a text between the occurrences of one separator character. -/
def splitChars (sep : Char) : List Char → List (List Char)
  | [] => [[]]
  | c :: cs =>
    if c = sep then [] :: splitChars sep cs
    else
      match splitChars sep cs with
      | [] => [[c]]
      | t :: ts => (c :: t) :: ts

/-- Library `strings.Split(s, sep)` for a separator of one character: all the pieces, at least
one (the text itself when the separator does not occur in it). -/
def stringsSplit (s : String) (sep : Char) : List String :=
  (splitChars sep s.data).map String.mk

/-- The non-breaking space `U+00A0`. -/
def nbsp : Char := Char.ofNat 160

/-! ## The data model of `main.go` -/

/-- The struct `Company` of `main.go` (of the embedded `gorm.Model` only the columns that play a
part are kept: none). -/
structure Company where
  ID : Int
  Symbol : String
  SecurityName : String
  Name : String
  ActiveStatus : String
deriving DecidableEq, Repr

/-- The struct `Stock` of `main.go`.  `ID` is the primary key of the embedded `gorm.Model`
(its time stamps are left out). -/
structure Stock where
  ID : Nat
  RemoteId : String
  BusinessDate : String
  SecurityId : Int
  Symbol : String
  SecurityName : String
  OpenPrice : Float64
  HighPrice : Float64
  LowPrice : Float64
  ClosePrice : Float64
  TotalTradedQuantity : Float64
  TotalTradedValue : Float64
  PreviousDayClosePrice : Float64
  FiftyTwoWeekHigh : Float64
  FiftyTwoWeekLow : Float64
  LastUpdatedTime : String
  LastUpdatedPrice : Float64
  TotalTrades : Int
  AverageTradedPrice : Float64
  MarketCapitalization : Float64
deriving DecidableEq, Repr

/-- The value `Stock{}`: every field at its zero value. -/
def Stock.zero : Stock :=
  { ID := 0, RemoteId := "", BusinessDate := "", SecurityId := 0, Symbol := "",
    SecurityName := "", OpenPrice := Float64.zero, HighPrice := Float64.zero,
    LowPrice := Float64.zero, ClosePrice := Float64.zero,
    TotalTradedQuantity := Float64.zero, TotalTradedValue := Float64.zero,
    PreviousDayClosePrice := Float64.zero, FiftyTwoWeekHigh := Float64.zero,
    FiftyTwoWeekLow := Float64.zero, LastUpdatedTime := "", LastUpdatedPrice := Float64.zero,
    TotalTrades := 0, AverageTradedPrice := Float64.zero, MarketCapitalization := Float64.zero }

/-! ## The `OnHTML` callback -/

/-- One `tr` of the table body as the callback sees it: `pullLeft` is the value of
`row.ChildText(".pull-left")`, `td` the texts (`h2.Text`) of its `td` cells in order. -/
structure Row where
  pullLeft : String
  td : List String
deriving DecidableEq, Repr

/-- The `switch h2.Index` of the `td` callback: the assignment made for the cell of index
`index` with text `text`. -/
def tdSwitch (data : Stock) (index : Nat) (text : String) : Stock :=
  match index with
  | 1 => { data with SecurityName := text }
  | 2 => { data with TotalTrades := convInt text }
  | 3 => { data with HighPrice := convFloat text }
  | 4 => { data with LowPrice := convFloat text }
  | 5 => { data with ClosePrice := convFloat text }
  | 6 => { data with TotalTradedQuantity := convFloat text }
  | 7 => { data with TotalTradedValue := convFloat text }
  | 8 => { data with PreviousDayClosePrice := convFloat text }
  | _ => data

/-- The loop `row.ForEach("td", ...)`: the cells from index `i` on, applied to `data`. -/
def tdForEach : List String → Nat → Stock → Stock
  | [], _, data => data
  | text :: rest, i, data => tdForEach rest (i + 1) (tdSwitch data i text)

/-- A run-time panic of the Go program. -/
inductive Panic where
  | indexOutOfRange (index len : Nat)
deriving DecidableEq, Repr

/-- The variables the row callback shares over the rows of one table: the slice `s`, the
counter of the wait group `wg`, and the records handed to `go write`, in the order of the
rows. -/
structure LoopState where
  s : List String
  wg : Nat
  tasks : List Stock
deriving DecidableEq, Repr

/-- The assignments `data.BusinessDate = s[0]` and `data.LastUpdatedTime = s[1]`, for the values
`s0`, `s1` of `s[0]`, `s[1]`. -/
def stamp (data : Stock) (s0 s1 : String) : Stock :=
  { data with BusinessDate := s0, LastUpdatedTime := s1 }

/-- The condition `i >= 2 && i < e.DOM.Children().Length()-4`, the table body having `len`
children. -/
def inWindow (len i : Nat) : Bool := decide (2 ≤ i) && decide ((i : Int) < (len : Int) - 4)

/-- The body of `e.ForEach("tr", func(i int, row *colly.HTMLElement) {...})` for the row of
index `i` of a table body with `len` children. -/
def rowCallback (len : Nat) (st : LoopState) (i : Nat) (row : Row) : Except Panic LoopState :=
  let data : Stock := if inWindow len i then tdForEach row.td 0 Stock.zero else Stock.zero
  let s : List String :=
    if !inWindow len i && decide (i = 0) then
      stringsSplit (stringsTrimPrefix row.pullLeft "As of ") nbsp
    else st.s
  if data.SecurityName ≠ "" then
    -- wg.Add(1)
    match s with
    | [] => Except.error (Panic.indexOutOfRange 0 0)
    | [_] => Except.error (Panic.indexOutOfRange 1 1)
    | s0 :: s1 :: _ =>
      Except.ok
        { s := s, wg := st.wg + 1, tasks := st.tasks ++ [stamp data s0 s1] }
  else Except.ok { st with s := s }

/-- The loop `e.ForEach("tr", ...)` over the rows from index `i` on; a panic ends it. -/
def rowForEach (len : Nat) : List Row → Nat → LoopState → Except Panic LoopState
  | [], _, st => Except.ok st
  | row :: rest, i, st =>
    match rowCallback len st i row with
    | Except.error e => Except.error e
    | Except.ok st1 => rowForEach len rest (i + 1) st1

/-- The row loop of the `OnHTML` callback on a table body whose children are the rows `rows`:
the state it reaches before `wg.Wait()`, or the panic that ends it. -/
def onHTMLRows (rows : List Row) : Except Panic LoopState :=
  rowForEach rows.length rows 0 { s := [], wg := 0, tasks := [] }

/-- The rows, from index `i` on, whose index is in the window of a table body with `len`
children and whose cell of index 1 has a non-empty text, in the order of the rows. -/
def dataRowsFrom (len : Nat) : List Row → Nat → List Row
  | [], _ => []
  | row :: rest, i =>
    if inWindow len i && decide (row.td.getD 1 "" ≠ "") then row :: dataRowsFrom len rest (i + 1)
    else dataRowsFrom len rest (i + 1)

/-- The rows of a table body whose index `i` satisfies `2 <= i < L-4` and whose cell of index 1
has a non-empty text. -/
def dataRows (rows : List Row) : List Row := dataRowsFrom rows.length rows 0

/-- The tokens of the metadata of a row: its `.pull-left` text without the leading `"As of "`,
split on `U+00A0`. -/
def metaTokens (row : Row) : List String :=
  stringsSplit (stringsTrimPrefix row.pullLeft "As of ") nbsp

/-! ## `time` and the scheduling loop -/

/-- The year of the zero of the absolute time scale of package `time`; it is 1 modulo 400. -/
def absoluteZeroYear : Int := -292277022399

/-- The constant `secondsPerDay` of package `time`. -/
def secondsPerDay : Int := 86400

/-- A `time.Time` in UTC: the seconds since January 1 of `absoluteZeroYear`, 00:00:00 (what the
library calls `abs`; it keeps it in a `uint64`, the representable times are the non-negative
ones) and the nanoseconds within the second. -/
structure Time where
  abs : Int
  nsec : Int
deriving DecidableEq, Repr

/-- A `time.Duration`: nanoseconds. -/
abbrev Duration := Int

/-- The constant `time.Hour`. -/
def Hour : Duration := 3600 * 1000000000

/-- Library `time.isLeap`. -/
def isLeap (year : Int) : Bool :=
  decide (year % 4 = 0) && (decide (year % 100 ≠ 0) || decide (year % 400 = 0))

/-- The table `daysBefore` of package `time`: `daysBefore m` is the number of days of a
non-leap year before month `m + 1`. -/
def daysBefore (m : Int) : Int :=
  [0, 31, 59, 90, 120, 151, 181, 212, 243, 273, 304, 334, 365].getD m.toNat 0

/-- The first half of library `time.absDate`: the year and the day within the year (from 0) of
the absolute day number `d`, by cutting off cycles of 400, 100, 4 and 1 years. -/
def yearDay (d : Int) : Int × Int :=
  let n := d / 146097
  let y := 400 * n
  let d := d - 146097 * n
  let n := d / 36524
  let n := n - n / 4
  let y := y + 100 * n
  let d := d - 36524 * n
  let n := d / 1461
  let y := y + 4 * n
  let d := d - 1461 * n
  let n := d / 365
  let n := n - n / 4
  let y := y + n
  let d := d - 365 * n
  (y + absoluteZeroYear, d)

/-- The second half of library `time.absDate`: month and day of the month of the day `yday` of a
year that is a leap year or not. -/
def monthDay (leap : Bool) (yday : Int) : Int × Int :=
  if leap && decide (yday = 31 + 29 - 1) then (2, 29)
  else
    let day := if leap && decide (yday > 31 + 29 - 1) then yday - 1 else yday
    let month := day / 31
    let fin := daysBefore (month + 1)
    if day ≥ fin then (month + 1 + 1, day - fin + 1)
    else (month + 1, day - daysBefore month + 1)

/-- The method `Year` of `time.Time`. -/
def Time.Year (t : Time) : Int := (yearDay (t.abs / secondsPerDay)).1

/-- The method `Month` of `time.Time`, as the number `%d` prints. -/
def Time.Month (t : Time) : Int :=
  (monthDay (isLeap t.Year) (yearDay (t.abs / secondsPerDay)).2).1

/-- The method `Day` of `time.Time`. -/
def Time.Day (t : Time) : Int :=
  (monthDay (isLeap t.Year) (yearDay (t.abs / secondsPerDay)).2).2

/-- The method `Add` of `time.Time` (the monotonic clock reading plays no part here). -/
def Time.Add (t : Time) (d : Duration) : Time :=
  let dsec := Int.tdiv d 1000000000
  let nsec := t.nsec + Int.tmod d 1000000000
  if nsec ≥ 1000000000 then ⟨t.abs + (dsec + 1), nsec - 1000000000⟩
  else if nsec < 0 then ⟨t.abs + (dsec - 1), nsec + 1000000000⟩
  else ⟨t.abs + dsec, nsec⟩

/-- Library `time.daysSinceEpoch`: the days from the absolute zero to January 1 of `year`. -/
def daysSinceEpoch (year : Int) : Int :=
  let y := year - absoluteZeroYear
  let n := y / 400
  let y := y - 400 * n
  let d := 146097 * n
  let n := y / 100
  let y := y - 100 * n
  let d := d + 36524 * n
  let n := y / 4
  let y := y - 4 * n
  let d := d + 1461 * n
  d + 365 * y

/-- Library `time.Date(year, month, day, 0, 0, 0, 0, time.UTC)`: the month is normalised into
1..12 (overflowing into the year), the day is counted on from the first of the month. -/
def Date (year month day : Int) : Time :=
  let m := month - 1
  let year := year + m / 12
  let m := m % 12
  let d := daysSinceEpoch year + daysBefore m
  let d := if isLeap year && decide (m + 1 ≥ 3) then d + 1 else d
  ⟨(d + (day - 1)) * secondsPerDay, 0⟩

/-- The verb `%d` of `fmt.Sprintf` on an integer: decimal digits, a minus sign before a negative
number, no padding. -/
def fmtInt (i : Int) : String := toString i

/-- The text `fmt.Sprintf("%d-%d-%d", now.Year(), now.Month(), now.Day())`. -/
def dateParam (now : Time) : String :=
  fmtInt now.Year ++ "-" ++ fmtInt now.Month ++ "-" ++ fmtInt now.Day

/-- The text `fmt.Sprintf("http://www.nepalstock.com/todaysprice?startDate=%s&_limit=300", p)`. -/
def reportURL (p : String) : String :=
  "http://www.nepalstock.com/todaysprice?startDate=" ++ p ++ "&_limit=300"

/-- The scheduling loop `for i := ...; i++ { ... }` of `main`, for `count` more iterations from
the index `i` with the variable `now`: the final value of `now` and the URLs handed to
`q.AddURL` (and printed), in order. -/
def scheduleLoop : Nat → Nat → Time → Time × List String
  | 0, _, now => (now, [])
  | count + 1, i, now =>
    let now1 := if i ≠ 0 then now.Add (-24 * Hour) else now
    let r := scheduleLoop count (i + 1) now1
    (r.1, reportURL (dateParam now1) :: r.2)

/-- The scheduling loop with the start time `now` and the bound `n` (3800 in `main`). -/
def schedule (now : Time) (n : Nat) : Time × List String := scheduleLoop n 0 now

/-- The method `AddURL` of colly's queue on a storage `InMemoryQueueStorage{MaxSize: 10000}`
holding `q` (library): a full storage discards the URL, with an error that `main` ignores. -/
def AddURL (q : List String) (url : String) : List String :=
  if q.length ≥ 10000 then q else q ++ [url]

/-- The storage of the queue after the scheduling loop: `q.AddURL` for every URL, in order. -/
def queued (urls : List String) : List String := urls.foldl AddURL []

/-- The URL of the call `c.Visit(...)` of the `OnScraped` callback: the date is formatted with
`"%d-%d-%d\n"`, from the variable `now` the callback shares with the scheduling loop. -/
def onScrapedURL (now : Time) : String := reportURL (dateParam now ++ "\n")

/-- The URLs `main` asks the collector to fetch in a run that starts at `start`, schedules `n`
days and sees `scraped` pages scraped: the queue that `q.Run(c)` drains, and one `c.Visit` per
`OnScraped` callback, which runs after the scheduling loop has ended. -/
def requested (start : Time) (n scraped : Nat) : List String :=
  queued (schedule start n).2 ++ List.replicate scraped (onScrapedURL (schedule start n).1)

/-- The start time of `main`: `time.Date(2021, 06, 24, 0, 0, 0, 0, time.UTC)`. -/
def mainStart : Time := Date 2021 6 24

/-- The bound of the scheduling loop of `main`. -/
def mainCount : Nat := 3800

/-! ### The calendar, for the statement of the date sequence -/

/-- Days from the absolute zero to January 1 of the year `y` years after `absoluteZeroYear`:
365 a year and one more for every leap year passed. -/
def yearStart (y : Int) : Int := 365 * y + y / 4 - y / 100 + y / 400


/-- A calendar date: year, month (1..12) and day of the month. -/
structure CivilDate where
  year : Int
  month : Int
  day : Int
deriving DecidableEq, Repr

/-- Number of days of a month of a leap or of a common year. -/
def daysInMonthOf (leap : Bool) (month : Int) : Int :=
  if month = 2 then (if leap then 29 else 28)
  else if month = 4 ∨ month = 6 ∨ month = 9 ∨ month = 11 then 30
  else 31

/-- Number of days of a month of the Gregorian calendar. -/
def daysInMonth (year month : Int) : Int := daysInMonthOf (isLeap year) month

/-- The calendar date one day before `c`. -/
def prevDay (c : CivilDate) : CivilDate :=
  if c.day > 1 then ⟨c.year, c.month, c.day - 1⟩
  else if c.month > 1 then ⟨c.year, c.month - 1, daysInMonth c.year (c.month - 1)⟩
  else ⟨c.year - 1, 12, 31⟩

/-- The calendar date `c` minus `i` days. -/
def minusDays (c : CivilDate) : Nat → CivilDate
  | 0 => c
  | i + 1 => prevDay (minusDays c i)

/-- The calendar date of a time: its `Year()`, `Month()` and `Day()`. -/
def Time.civil (t : Time) : CivilDate := ⟨t.Year, t.Month, t.Day⟩

/-- The order of calendar dates: by year, then month, then day. -/
def CivilDate.before (a b : CivilDate) : Prop :=
  a.year < b.year ∨ (a.year = b.year ∧ (a.month < b.month ∨ (a.month = b.month ∧ a.day < b.day)))

/-- The report URL of a calendar date, with unpadded decimal year, month and day. -/
def urlOfDate (c : CivilDate) : String :=
  "http://www.nepalstock.com/todaysprice?startDate=" ++
    (fmtInt c.year ++ "-" ++ fmtInt c.month ++ "-" ++ fmtInt c.day) ++ "&_limit=300"

/-! ## The database and `write` -/

/-- An error of a database call. -/
inductive DbError where
  | recordNotFound
  | uniqueViolation
  | unavailable
deriving DecidableEq, Repr

/-- The database: the rows of table `companies` (those not soft-deleted) in the order of their
primary key, the rows of table `stocks`, and the last value of the sequence that numbers the
`id` of `stocks`. -/
structure DB where
  companies : List Company
  stocks : List Stock
  seq : Nat
deriving DecidableEq, Repr

/-- The unique index `idx_last_update` of `Stock`: two rows collide when they agree on
`BusinessDate`, `Symbol` and `SecurityName`. -/
def sameKey (a b : Stock) : Bool :=
  decide (a.BusinessDate = b.BusinessDate) && decide (a.Symbol = b.Symbol) &&
    decide (a.SecurityName = b.SecurityName)

/-- The query `db.Where(&Company{SecurityName: name}).First(&comp)` of gorm (library): a struct
condition keeps the non-zero fields only, so an empty `name` is no condition at all; `First`
takes the first row by primary key, and finds none with `ErrRecordNotFound`. -/
def companyFirst (companies : List Company) (name : String) : Option Company :=
  if name = "" then companies.head?
  else companies.find? (fun c => decide (c.SecurityName = name))

/-- The value `&Company{}`. -/
def Company.zero : Company := ⟨0, "", "", "", ""⟩

/-- The statement `INSERT INTO stocks ... ON CONFLICT ("id") DO UPDATE SET ...` of PostgreSQL for
a row whose `id` is already chosen: a row with that `id` is overwritten, otherwise the row is
added; in both cases a collision with another row on the unique index `idx_last_update` is an
error (the conflict clause names `id` only) and leaves the table as it was. -/
def insertOnConflictId (stocks : List Stock) (row : Stock) : List Stock × Option DbError :=
  if stocks.any (fun r => decide (r.ID ≠ row.ID) && sameKey row r) then
    (stocks, some DbError.uniqueViolation)
  else if stocks.any (fun r => decide (r.ID = row.ID)) then
    (stocks.map (fun r => if r.ID = row.ID then row else r), none)
  else (stocks ++ [row], none)

/-- The call `db.Clauses(clause.OnConflict{UpdateAll: true}).Create(data)` of gorm on PostgreSQL
(library).  gorm documents the statement it sends for `UpdateAll` without `Columns` as
`INSERT ... ON CONFLICT ("id") DO UPDATE SET` every other column: the conflict target is the
primary key.  A record with `ID` 0 gets its `id` from the sequence (which moves on even when
the insert fails).  The result is the table, the sequence, the `id` of the record and the
error. -/
def Create (stocks : List Stock) (seq : Nat) (data : Stock) :
    List Stock × Nat × Nat × Option DbError :=
  let id := if data.ID = 0 then seq + 1 else data.ID
  let seq1 := if data.ID = 0 then seq + 1 else seq
  let r := insertOnConflictId stocks { data with ID := id }
  (r.1, seq1, id, r.2)

/-- Failures of the connection to the database during one `write`: of the lookup, of the
insert. -/
structure Faults where
  lookup : Bool
  insert : Bool
deriving DecidableEq, Repr

/-- No failure of the connection. -/
def Faults.none : Faults := ⟨false, false⟩

/-- What one call of `write` leaves: the database, the record as handed to `Create` (with the
resolved `Symbol` and `SecurityId`), and the two errors it printed, if any. -/
structure WriteResult where
  db : DB
  submitted : Stock
  lookupErr : Option DbError
  createErr : Option DbError
deriving DecidableEq, Repr

/-- The body of `write` of `main.go` between `mutex.Lock()` and the deferred calls: the lookup
of the company by `SecurityName`, whose error is printed and otherwise ignored, the two
assignments from `comp`, and the insert, whose error is printed. -/
def write (db : DB) (data : Stock) (f : Faults) : WriteResult :=
  let found : Option Company := if f.lookup then Option.none else companyFirst db.companies data.SecurityName
  let lookupErr : Option DbError :=
    if f.lookup then some DbError.unavailable
    else if found.isSome then Option.none else some DbError.recordNotFound
  let comp : Company := found.getD Company.zero
  let data1 : Stock := { data with Symbol := comp.Symbol, SecurityId := comp.ID }
  if f.insert then
    { db := db, submitted := data1, lookupErr := lookupErr,
      createErr := some DbError.unavailable }
  else
    let r := Create db.stocks db.seq data1
    { db := { db with stocks := r.1, seq := r.2.1 }, submitted := data1,
      lookupErr := lookupErr, createErr := r.2.2.2 }

/-! ## The goroutines of one page -/

/-- Where a goroutine that runs `write` stands: before `mutex.Lock()` returns, in the body,
before the deferred `mutex.Unlock()`, before the deferred `wg.Done()`, ended. -/
inductive Pc where
  | lockWait
  | holding
  | unlocking
  | signalling
  | finished
deriving DecidableEq, Repr

/-- The state of the `OnHTML` callback and of the goroutines it starts: the records of the
rows still to be emitted by the row loop, whether `wg.Wait()` has returned, the counter of
`wg`, whether `mutex` is locked, the goroutines started so far with their records, and the
database. -/
structure PageState where
  pending : List Stock
  returned : Bool
  wg : Int
  mutex : Bool
  tasks : List (Stock × Pc)
  db : DB
deriving DecidableEq, Repr

/-- One atomic step of a page: `spawn` is `wg.Add(1)` and `go write(...)` of the row loop for
the next record; `lock i`, `body i f`, `unlock i`, `done i` are the four stages of goroutine
`i` (`f` tells which database calls lose their connection); `wait` is the return of
`wg.Wait()`. -/
inductive Action where
  | spawn
  | lock (i : Nat)
  | body (i : Nat) (f : Faults)
  | unlock (i : Nat)
  | done (i : Nat)
  | wait
deriving DecidableEq, Repr

/-- What an action does in a state: it leads to a state, or it cannot happen there (the
goroutine is blocked or stands elsewhere), or the Go runtime aborts the program (`Unlock` of an
unlocked mutex, a negative counter of the wait group). -/
inductive Outcome where
  | ok (s : PageState)
  | blocked
  | abort
deriving DecidableEq, Repr

/-- Goroutine `i` moves to `pc`. -/
def setPc (s : PageState) (i : Nat) (data : Stock) (pc : Pc) : PageState :=
  { s with tasks := s.tasks.set i (data, pc) }

/-- The step function of a page. -/
def step (s : PageState) (a : Action) : Outcome :=
  match a with
  | Action.spawn =>
    match s.pending with
    | [] => Outcome.blocked
    | data :: rest =>
      Outcome.ok { s with pending := rest, wg := s.wg + 1, tasks := s.tasks ++ [(data, Pc.lockWait)] }
  | Action.lock i =>
    match s.tasks[i]? with
    | some (data, Pc.lockWait) =>
      if s.mutex then Outcome.blocked else Outcome.ok (setPc { s with mutex := true } i data Pc.holding)
    | _ => Outcome.blocked
  | Action.body i f =>
    match s.tasks[i]? with
    | some (data, Pc.holding) =>
      Outcome.ok (setPc { s with db := (write s.db data f).db } i data Pc.unlocking)
    | _ => Outcome.blocked
  | Action.unlock i =>
    match s.tasks[i]? with
    | some (data, Pc.unlocking) =>
      if s.mutex then Outcome.ok (setPc { s with mutex := false } i data Pc.signalling)
      else Outcome.abort
    | _ => Outcome.blocked
  | Action.done i =>
    match s.tasks[i]? with
    | some (data, Pc.signalling) =>
      if s.wg ≥ 1 then Outcome.ok (setPc { s with wg := s.wg - 1 } i data Pc.finished)
      else Outcome.abort
    | _ => Outcome.blocked
  | Action.wait =>
    if s.pending = [] ∧ s.returned = false then
      if s.wg = 0 then Outcome.ok { s with returned := true } else Outcome.blocked
    else Outcome.blocked

/-- A sequence of actions from a state; it stops at the first action that is blocked or
aborts. -/
def run (s : PageState) : List Action → Outcome
  | [] => Outcome.ok s
  | a :: rest =>
    match step s a with
    | Outcome.ok s1 => run s1 rest
    | Outcome.blocked => Outcome.blocked
    | Outcome.abort => Outcome.abort

/-- The state in which the row loop of a page starts: `var wg sync.WaitGroup`, an unlocked
mutex, no goroutine; `records` are the records the loop will emit. -/
def pageStart (records : List Stock) (db : DB) : PageState :=
  { pending := records, returned := false, wg := 0, mutex := false, tasks := [], db := db }

/-- The sum of `f` over the stages of the goroutines. -/
def total (f : Pc → Nat) (tasks : List (Stock × Pc)) : Nat :=
  (tasks.map (fun t => f t.2)).sum

/-- One for a goroutine that has not ended, zero otherwise. -/
def unfinished (pc : Pc) : Nat := if pc = Pc.finished then 0 else 1

/-- One for a goroutine between `mutex.Lock()` and `mutex.Unlock()`, zero otherwise. -/
def critical (pc : Pc) : Nat := if pc = Pc.holding ∨ pc = Pc.unlocking then 1 else 0

/-- The number of steps a goroutine still has to make. -/
def stepsLeft (pc : Pc) : Nat :=
  match pc with
  | Pc.lockWait => 4
  | Pc.holding => 3
  | Pc.unlocking => 2
  | Pc.signalling => 1
  | Pc.finished => 0

/-- The number of steps a page still has to make: five for a record not yet emitted, those of
the goroutines, one for the return of `wg.Wait()`. -/
def pageSteps (s : PageState) : Nat :=
  5 * s.pending.length + total stepsLeft s.tasks + (if s.returned then 0 else 1)

/-- The invariant of a page: the counter of the wait group is the number of goroutines that
have not ended, the mutex is locked exactly when one goroutine (and then only one) is between
`Lock` and `Unlock`, and `wg.Wait()` has returned only after every record was emitted and
every goroutine has ended. -/
def Inv (s : PageState) : Prop :=
  s.wg = (total unfinished s.tasks : Int) ∧
  total critical s.tasks = (if s.mutex then 1 else 0) ∧
  (s.returned = true → s.pending = [] ∧ total unfinished s.tasks = 0)

/-- One once a goroutine has made the call `mutex.Unlock()`, zero before. -/
def hasUnlocked (pc : Pc) : Nat := if pc = Pc.signalling ∨ pc = Pc.finished then 1 else 0

/-- One once a goroutine has made the call `wg.Done()`, zero before. -/
def hasSignalled (pc : Pc) : Nat := if pc = Pc.finished then 1 else 0

/-- The value of `p` at the stage of goroutine `i`, 0 when it is not started yet. -/
def atStage (p : Pc → Nat) (s : PageState) (i : Nat) : Nat :=
  match s.tasks[i]? with
  | some t => p t.2
  | none => 0

/-! ## Sample inputs -/

/-- The cells of the data row of the specification's example scenario (cell 0 is the serial
number). -/
def exampleCells : List String :=
  ["1", "ABC Bank Ltd.", "120", "505.0", "495.0", "500.0", "10000", "5000000", "498.0"]

/-- The data row of the example scenario. -/
def exampleRow : Row := ⟨"", exampleCells⟩

/-- A row without text and without cells. -/
def blankRow : Row := ⟨"", []⟩

/-- A table body: a metadata row with the given `.pull-left` text, a second header row, the
given data rows and four footer rows. -/
def tableOf (metaText : String) (data : List Row) : List Row :=
  ⟨metaText, []⟩ :: blankRow :: (data ++ [blankRow, blankRow, blankRow, blankRow])

/-- The metadata text of a well-formed page: date and time separated by `U+00A0`. -/
def goodMeta : String := "As of 2021-06-24" ++ String.singleton nbsp ++ "15:00:00"

/-- The reference store of the example scenario. -/
def exampleCompanies : List Company := [⟨1, "ABC", "ABC Bank Ltd.", "ABC Bank Limited", "A"⟩]

/-- The record the row loop hands to `write` for the example row on the page of 2021-06-24,
15:00. -/
def exampleRecord : Stock :=
  { Stock.zero with
    BusinessDate := "2021-06-24"
    LastUpdatedTime := "15:00"
    SecurityName := "ABC Bank Ltd."
    TotalTrades := 120
    HighPrice := Float64.ofNat 505
    LowPrice := Float64.ofNat 495
    ClosePrice := Float64.ofNat 500
    TotalTradedQuantity := Float64.ofNat 10000
    TotalTradedValue := Float64.ofNat 5000000
    PreviousDayClosePrice := Float64.ofNat 498 }

/-- The example record with the close price changed to 501. -/
def exampleRecord501 : Stock := { exampleRecord with ClosePrice := Float64.ofNat 501 }

/-! # Theorems -/


/-! ## Lemmas on the `td` loop -/

theorem tdSwitch_ge_nine (data : Stock) (k : Nat) (text : String) :
    tdSwitch data (k + 9) text = data := rfl

theorem tdForEach_ge_nine (cells : List String) (i : Nat) (data : Stock) (h : 9 ≤ i) :
    tdForEach cells i data = data := by
  induction cells generalizing i data with
  | nil => rfl
  | cons text rest ih =>
    obtain ⟨k, rfl⟩ : ∃ k, i = k + 9 := ⟨i - 9, by omega⟩
    rw [tdForEach, tdSwitch_ge_nine]
    exact ih _ _ (by omega)

theorem convInt_empty : convInt "" = 0 := by decide

theorem convFloat_empty : convFloat "" = Float64.zero := by decide

/-- The record the `td` loop builds from the cells of a row. -/
theorem tdForEach_eq (cells : List String) :
    tdForEach cells 0 Stock.zero =
      { Stock.zero with
        SecurityName := cells.getD 1 ""
        TotalTrades := convInt (cells.getD 2 "")
        HighPrice := convFloat (cells.getD 3 "")
        LowPrice := convFloat (cells.getD 4 "")
        ClosePrice := convFloat (cells.getD 5 "")
        TotalTradedQuantity := convFloat (cells.getD 6 "")
        TotalTradedValue := convFloat (cells.getD 7 "")
        PreviousDayClosePrice := convFloat (cells.getD 8 "") } := by
  rcases cells with _ | ⟨c0, _ | ⟨c1, _ | ⟨c2, _ | ⟨c3, _ | ⟨c4, _ | ⟨c5, _ | ⟨c6, _ | ⟨c7, _ | ⟨c8, tl⟩⟩⟩⟩⟩⟩⟩⟩⟩ <;>
    simp [tdForEach, tdSwitch, Stock.zero, convInt_empty, convFloat_empty, tdForEach_ge_nine]

theorem tdForEach_name (cells : List String) :
    (tdForEach cells 0 Stock.zero).SecurityName = cells.getD 1 "" := by
  rw [tdForEach_eq]

/-! ## Lemmas on the row loop -/

theorem inWindow_zero (len : Nat) : inWindow len 0 = false := by
  simp [inWindow]

theorem rowCallback_zero (len : Nat) (st : LoopState) (row : Row) :
    rowCallback len st 0 row = Except.ok { st with s := metaTokens row } := by
  simp [rowCallback, inWindow_zero, Stock.zero, metaTokens]

theorem rowCallback_succ (len : Nat) (st : LoopState) (i : Nat) (row : Row)
    (s0 s1 : String) (tl : List String) (hs : st.s = s0 :: s1 :: tl) :
    rowCallback len st (i + 1) row = Except.ok
      (if inWindow len (i + 1) && decide (row.td.getD 1 "" ≠ "") then
        { s := st.s, wg := st.wg + 1,
          tasks := st.tasks ++ [stamp (tdForEach row.td 0 Stock.zero) s0 s1] }
      else st) := by
  have hi : (!inWindow len (i + 1) && decide (i + 1 = 0)) = false := by simp
  have hname := tdForEach_name row.td
  unfold rowCallback
  simp only [hi, hs]
  cases hw : inWindow len (i + 1)
  · simp [Stock.zero, ← hs]
  · by_cases hn : row.td.getD 1 "" = ""
    · simp only [if_true, hname, hn, ne_eq, not_true_eq_false, if_false, decide_False,
        Bool.and_false, Bool.false_eq_true]
      rw [← hs]
    · simp only [if_true, hname, hn, ne_eq, not_false_eq_true, decide_True, Bool.and_self,
        Bool.false_eq_true, if_false]

theorem rowForEach_succ (len : Nat) (rs : List Row) (i : Nat) (st : LoopState)
    (s0 s1 : String) (tl : List String) (hs : st.s = s0 :: s1 :: tl) :
    rowForEach len rs (i + 1) st = Except.ok
      { s := st.s, wg := st.wg + (dataRowsFrom len rs (i + 1)).length,
        tasks := st.tasks ++ (dataRowsFrom len rs (i + 1)).map (fun r =>
          stamp (tdForEach r.td 0 Stock.zero) s0 s1) } := by
  induction rs generalizing i st with
  | nil => simp [rowForEach, dataRowsFrom]
  | cons row rest ih =>
    rw [rowForEach, rowCallback_succ len st i row s0 s1 tl hs]
    cases hc : (inWindow len (i + 1) && decide (row.td.getD 1 "" ≠ ""))
    · simp only [Bool.false_eq_true, if_false]
      rw [ih (i + 1) st hs, dataRowsFrom, hc]
      simp
    · simp only [if_true]
      rw [ih (i + 1) ⟨st.s, st.wg + 1, st.tasks ++ [stamp (tdForEach row.td 0 Stock.zero) s0 s1]⟩
        hs, dataRowsFrom, hc]
      simp [Nat.add_assoc, Nat.add_comm 1]

theorem dataRowsFrom_zero (len : Nat) (row : Row) (rest : List Row) :
    dataRowsFrom len (row :: rest) 0 = dataRowsFrom len rest 1 := by
  simp [dataRowsFrom, inWindow_zero]

/-- With a metadata row of two tokens or more the row loop ends normally, with one task per
data row. -/
theorem onHTMLRows_ok (row : Row) (rest : List Row) (s0 s1 : String) (tl : List String)
    (hs : metaTokens row = s0 :: s1 :: tl) :
    onHTMLRows (row :: rest) = Except.ok
      { s := s0 :: s1 :: tl, wg := (dataRows (row :: rest)).length,
        tasks := (dataRows (row :: rest)).map (fun r =>
          stamp (tdForEach r.td 0 Stock.zero) s0 s1) } := by
  unfold onHTMLRows dataRows
  rw [rowForEach, rowCallback_zero]
  simp only []
  rw [rowForEach_succ _ _ 0 _ s0 s1 tl hs, dataRowsFrom_zero]
  simp [hs]

theorem rowCallback_names (len : Nat) (st st1 : LoopState) (i : Nat) (row : Row)
    (h : rowCallback len st i row = Except.ok st1)
    (hst : ∀ t ∈ st.tasks, t.SecurityName ≠ "") :
    ∀ t ∈ st1.tasks, t.SecurityName ≠ "" := by
  unfold rowCallback at h
  simp only [] at h
  generalize (if inWindow len i = true then tdForEach row.td 0 Stock.zero else Stock.zero) = data
    at h
  generalize (if (!inWindow len i && decide (i = 0)) = true then
    stringsSplit (stringsTrimPrefix row.pullLeft "As of ") nbsp else st.s) = s at h
  split at h
  · rename_i hname
    split at h
    · cases h
    · cases h
    · injection h with h
      subst h
      intro t ht
      simp only [List.mem_append, List.mem_singleton] at ht
      rcases ht with ht | rfl
      · exact hst t ht
      · exact hname
  · injection h with h
    subst h
    exact hst

theorem rowForEach_names (len : Nat) (rs : List Row) (i : Nat) (st st1 : LoopState)
    (h : rowForEach len rs i st = Except.ok st1)
    (hst : ∀ t ∈ st.tasks, t.SecurityName ≠ "") :
    ∀ t ∈ st1.tasks, t.SecurityName ≠ "" := by
  induction rs generalizing i st with
  | nil =>
    rw [rowForEach] at h
    injection h with h
    subst h
    exact hst
  | cons row rest ih =>
    rw [rowForEach] at h
    split at h
    · cases h
    · rename_i st2 h2
      exact ih (i + 1) st2 h (rowCallback_names len st st2 i row h2 hst)

theorem dataRowsFrom_footer (len : Nat) (f1 f2 f3 f4 : Row) (i : Nat) (hlen : i + 4 = len) :
    dataRowsFrom len [f1, f2, f3, f4] i = [] := by
  have h1 : inWindow len i = false := by simp [inWindow]; omega
  have h2 : inWindow len (i + 1) = false := by simp [inWindow]; omega
  have h3 : inWindow len (i + 1 + 1) = false := by simp [inWindow]; omega
  have h4 : inWindow len (i + 1 + 1 + 1) = false := by simp [inWindow]; omega
  simp [dataRowsFrom, h1, h2, h3, h4]

theorem dataRowsFrom_block (len : Nat) (data : List Row) (f1 f2 f3 f4 : Row) (i : Nat)
    (hlo : 2 ≤ i) (hlen : i + data.length + 4 = len)
    (hname : ∀ r ∈ data, r.td.getD 1 "" ≠ "") :
    dataRowsFrom len (data ++ [f1, f2, f3, f4]) i = data := by
  induction data generalizing i with
  | nil => exact dataRowsFrom_footer len f1 f2 f3 f4 i (by simpa using hlen)
  | cons r rs ih =>
    have hw : inWindow len i = true := by
      simp only [List.length_cons] at hlen
      simp [inWindow]; omega
    have hr : r.td.getD 1 "" ≠ "" := hname r (by simp)
    have hrs := ih (i + 1) (by omega) (by simp only [List.length_cons] at hlen; omega)
      (fun x hx => hname x (by simp [hx]))
    show dataRowsFrom len (r :: (rs ++ [f1, f2, f3, f4])) i = r :: rs
    rw [dataRowsFrom, hrs, hw, decide_eq_true hr]
    rfl

/-! ## Lemmas on `strings` -/

theorem splitChars_ne_nil (sep : Char) (l : List Char) : splitChars sep l ≠ [] := by
  cases l with
  | nil => simp [splitChars]
  | cons c cs =>
    rw [splitChars]
    split
    · simp
    · split <;> simp

theorem splitChars_of_not_mem (sep : Char) (l : List Char) (h : sep ∉ l) :
    splitChars sep l = [l] := by
  induction l with
  | nil => rfl
  | cons c cs ih =>
    have hc : c ≠ sep := fun e => h (by simp [e])
    have hcs : sep ∉ cs := fun e => h (by simp [e])
    rw [splitChars, if_neg hc, ih hcs]

theorem splitChars_append (sep : Char) (a b : List Char) (h : sep ∉ a) :
    splitChars sep (a ++ sep :: b) = a :: splitChars sep b := by
  induction a with
  | nil => simp [splitChars]
  | cons c cs ih =>
    have hc : c ≠ sep := fun e => h (by simp [e])
    have hcs : sep ∉ cs := fun e => h (by simp [e])
    rw [List.cons_append, splitChars, if_neg hc, ih hcs]

theorem stringsTrimPrefix_append (pre x : String) : stringsTrimPrefix (pre ++ x) pre = x := by
  have h : pre.data.isPrefixOf (pre ++ x).data = true := by
    rw [String.data_append, List.isPrefixOf_iff_prefix]
    exact List.prefix_append _ _
  rw [stringsTrimPrefix, if_pos h, String.data_append, List.drop_left]

/-- The metadata text `"As of " ++ D ++ U+00A0 ++ T` splits into the tokens `D` and `T`. -/
theorem metaTokens_asOf (D T : String) (cells : List String)
    (hD : nbsp ∉ D.data) (hT : nbsp ∉ T.data) :
    metaTokens ⟨"As of " ++ (D ++ (String.singleton nbsp ++ T)), cells⟩ = [D, T] := by
  rw [metaTokens, stringsTrimPrefix_append, stringsSplit]
  simp only [String.data_append, String.data_singleton, List.singleton_append]
  rw [splitChars_append _ _ _ hD, splitChars_of_not_mem _ _ hT]
  rfl

/-! ## Lemmas on `strconv` -/

theorem parseIntSigned_cases (neg : Bool) (r : Nat × Option NumError) :
    ((parseIntSigned neg r).2 = some NumError.ErrSyntax ∧ (parseIntSigned neg r).1 = 0) ∨
    ((parseIntSigned neg r).2 = some NumError.ErrRange ∧
      ((parseIntSigned neg r).1 = maxInt64 ∨ (parseIntSigned neg r).1 = minInt64)) ∨
    (parseIntSigned neg r).2 = none := by
  obtain ⟨un, e⟩ := r
  rcases e with _ | _ | _ <;> simp only [parseIntSigned] <;> (try split) <;> (try split) <;> simp

theorem Atoi_cases (s : String) :
    ((Atoi s).2 = some NumError.ErrSyntax ∧ (Atoi s).1 = 0) ∨
    ((Atoi s).2 = some NumError.ErrRange ∧ ((Atoi s).1 = maxInt64 ∨ (Atoi s).1 = minInt64)) ∨
    (Atoi s).2 = none := by
  unfold Atoi ParseInt
  split
  · simp
  · split
    · exact parseIntSigned_cases _ _
    · split
      · exact parseIntSigned_cases _ _
      · exact parseIntSigned_cases _ _

theorem roundFrac_cases (neg : Bool) (n d : Nat) :
    ((roundFrac neg n d).2 = some NumError.ErrRange ∧ (roundFrac neg n d).1 = Float64.inf neg) ∨
    (roundFrac neg n d).2 = none := by
  unfold roundFrac packFloat
  split
  · simp
  · split <;> simp

theorem FloatLit.round_cases (l : FloatLit) :
    (l.round.2 = some NumError.ErrRange ∧ l.round.1 = Float64.inf l.neg) ∨ l.round.2 = none := by
  unfold FloatLit.round
  simp only []
  split <;> split <;> exact roundFrac_cases _ _ _

theorem atof64_cases (s : List Char) :
    ((atof64 s).2.2 = some NumError.ErrSyntax ∧ (atof64 s).1 = Float64.zero) ∨
    ((atof64 s).2.2 = some NumError.ErrRange ∧ ∃ neg, (atof64 s).1 = Float64.inf neg) ∨
    (atof64 s).2.2 = none := by
  unfold atof64
  split
  · simp
  · split
    · simp
    · rename_i l _
      simp only []
      split
      · simp
      · rcases FloatLit.round_cases l with ⟨h1, h2⟩ | h
        · exact Or.inr (Or.inl ⟨h1, _, h2⟩)
        · exact Or.inr (Or.inr h)

theorem ParseFloat_cases (s : String) :
    ((ParseFloat s).2 = some NumError.ErrSyntax ∧ (ParseFloat s).1 = Float64.zero) ∨
    ((ParseFloat s).2 = some NumError.ErrRange ∧ ∃ neg, (ParseFloat s).1 = Float64.inf neg) ∨
    (ParseFloat s).2 = none := by
  unfold ParseFloat
  simp only []
  split
  · simp
  · exact atof64_cases s.data


/-! ## The row filter (C1) -/

theorem mem_dataRowsFrom (len : Nat) (rs : List Row) (i : Nat) (r : Row) :
    r ∈ dataRowsFrom len rs i ↔
      ∃ k, rs[k]? = some r ∧ inWindow len (i + k) = true ∧ r.td.getD 1 "" ≠ "" := by
  induction rs generalizing i with
  | nil => simp [dataRowsFrom]
  | cons row rest ih =>
    have hstep : (∃ k, (row :: rest)[k]? = some r ∧ inWindow len (i + k) = true ∧
        r.td.getD 1 "" ≠ "") ↔
        (row = r ∧ inWindow len i = true ∧ r.td.getD 1 "" ≠ "") ∨
        (∃ k, rest[k]? = some r ∧ inWindow len (i + 1 + k) = true ∧ r.td.getD 1 "" ≠ "") := by
      constructor
      · rintro ⟨k, hk, hw, hn⟩
        cases k with
        | zero => left; exact ⟨by simpa using hk, by simpa using hw, hn⟩
        | succ k =>
          right
          refine ⟨k, by simpa using hk, ?_, hn⟩
          rw [← hw]; congr 1; omega
      · rintro (⟨rfl, hw, hn⟩ | ⟨k, hk, hw, hn⟩)
        · exact ⟨0, by simp, by simpa using hw, hn⟩
        · refine ⟨k + 1, by simpa using hk, ?_, hn⟩
          rw [← hw]; congr 1; omega
    rw [hstep, dataRowsFrom]
    by_cases hc : (inWindow len i && decide (row.td.getD 1 "" ≠ "")) = true
    · rw [if_pos hc, List.mem_cons, ih]
      simp only [Bool.and_eq_true, decide_eq_true_eq] at hc
      constructor
      · rintro (rfl | h)
        · exact Or.inl ⟨rfl, hc.1, hc.2⟩
        · exact Or.inr h
      · rintro (⟨rfl, _, _⟩ | h)
        · exact Or.inl rfl
        · exact Or.inr h
    · rw [if_neg hc, ih]
      simp only [Bool.and_eq_true, decide_eq_true_eq] at hc
      constructor
      · exact Or.inr
      · rintro (⟨rfl, hw, hn⟩ | h)
        · exact absurd ⟨hw, hn⟩ hc
        · exact h

theorem stamp_name (data : Stock) (s0 s1 : String) :
    (stamp data s0 s1).SecurityName = data.SecurityName := rfl

/-- C1 (as stated, refuted): the table has one row in the window with a non-empty cell 1, but its
metadata text holds no `U+00A0`; the row loop panics on `s[1]` and hands no record to `write`. -/
theorem C1_counterexample :
    (dataRows (tableOf "As of 2021-06-24 15:00:00" [exampleRow])).length = 1 ∧
    ¬ ∃ st, onHTMLRows (tableOf "As of 2021-06-24 15:00:00" [exampleRow]) = Except.ok st ∧
        st.tasks.length = 1 := by
  constructor
  · decide
  · have h : onHTMLRows (tableOf "As of 2021-06-24 15:00:00" [exampleRow]) =
        Except.error (Panic.indexOutOfRange 1 1) := by rfl
    rw [h]
    rintro ⟨st, hst, _⟩
    cases hst

/-- C1 (amended): for every table body whose row 0 has a metadata text of two tokens `s0`, `s1` or
more, the row loop ends normally and hands to `write` exactly one record per row whose index `i`
satisfies `2 <= i < L-4` and whose cell 1 is not empty, in the order of the rows, the wait group
counting them; a table of two header rows, `K` rows with a non-empty cell 1 and four footer rows
gives `K` records; and whenever the loop ends normally no record has an empty `SecurityName`. -/
theorem C1_row_filter (row : Row) (rest : List Row) (s0 s1 : String) (tl : List String)
    (hs : metaTokens row = s0 :: s1 :: tl) :
    (∃ st, onHTMLRows (row :: rest) = Except.ok st ∧
      st.tasks = (dataRows (row :: rest)).map (fun r => stamp (tdForEach r.td 0 Stock.zero) s0 s1) ∧
      st.tasks.map (fun t => t.SecurityName) =
        (dataRows (row :: rest)).map (fun r => r.td.getD 1 "") ∧
      st.wg = st.tasks.length) ∧
    (∀ r, r ∈ dataRows (row :: rest) ↔
      ∃ i : Nat, (row :: rest)[i]? = some r ∧ 2 ≤ i ∧ (i : Int) < ((row :: rest).length : Int) - 4 ∧
        r.td.getD 1 "" ≠ "") ∧
    (∀ (h2 f1 f2 f3 f4 : Row) (data : List Row), rest = h2 :: (data ++ [f1, f2, f3, f4]) →
      (∀ r ∈ data, r.td.getD 1 "" ≠ "") → dataRows (row :: rest) = data) ∧
    (∀ (rows : List Row) (st : LoopState), onHTMLRows rows = Except.ok st →
      ∀ t ∈ st.tasks, t.SecurityName ≠ "") := by
  refine ⟨⟨_, onHTMLRows_ok row rest s0 s1 tl hs, rfl, ?_, by simp⟩, ?_, ?_, ?_⟩
  · simp only [List.map_map]
    apply List.map_congr_left
    intro r _
    simp only [Function.comp, stamp_name, tdForEach_name]
  · intro r
    rw [dataRows, mem_dataRowsFrom]
    simp [inWindow, and_assoc]
  · rintro h2 f1 f2 f3 f4 data rfl hname
    rw [dataRows, dataRowsFrom_zero]
    show dataRowsFrom _ (h2 :: (data ++ [f1, f2, f3, f4])) 1 = data
    have h1 : inWindow (row :: h2 :: (data ++ [f1, f2, f3, f4])).length 1 = false := by
      simp [inWindow]
    rw [dataRowsFrom, h1]
    exact dataRowsFrom_block _ data f1 f2 f3 f4 2 (by omega) (by simp; omega) hname
  · intro rows st h
    exact rowForEach_names _ rows 0 _ st h (by simp)

/-- C1, witness: the table of the example scenario, one data row between two header rows and
four footer rows. -/
theorem C1_row_filter_witness :
    metaTokens ⟨goodMeta, []⟩ = ["2021-06-24", "15:00:00"] ∧
    ∃ st, onHTMLRows (tableOf goodMeta [exampleRow]) = Except.ok st ∧
      st.tasks.map (fun t => t.SecurityName) = ["ABC Bank Ltd."] ∧ st.wg = 1 := by
  refine ⟨by rfl, ?_⟩
  obtain ⟨st, h1, h2, h3, h4⟩ := (C1_row_filter ⟨goodMeta, []⟩
    (blankRow :: ([exampleRow] ++ [blankRow, blankRow, blankRow, blankRow]))
    "2021-06-24" "15:00:00" [] (by rfl)).1
  refine ⟨st, h1, h3.trans (by rfl), ?_⟩
  rw [h4, h2]
  rfl

/-! ## The column mapping (C2) -/

theorem inWindow_pos (len i : Nat) (h : inWindow len i = true) : ∃ k, i = k + 1 := by
  simp only [inWindow, Bool.and_eq_true, decide_eq_true_eq] at h
  exact ⟨i - 1, by omega⟩

/-- The record handed to `write` for a row in the window whose cell 1 is not empty. -/
theorem rowCallback_data (len : Nat) (st : LoopState) (i : Nat) (row : Row)
    (s0 s1 : String) (tl : List String) (hw : inWindow len i = true)
    (hs : st.s = s0 :: s1 :: tl) (hn : row.td.getD 1 "" ≠ "") :
    rowCallback len st i row = Except.ok
      { s := st.s, wg := st.wg + 1,
        tasks := st.tasks ++ [stamp (tdForEach row.td 0 Stock.zero) s0 s1] } := by
  obtain ⟨k, rfl⟩ := inWindow_pos len i hw
  rw [rowCallback_succ len st k row s0 s1 tl hs, hw, decide_eq_true hn]
  rfl

set_option maxRecDepth 100000 in
/-- C2: the record built from the cells `c0, c1, ...` of a row has `SecurityName = c1`,
`TotalTrades = convInt c2`, `HighPrice = convFloat c3`, `LowPrice = convFloat c4`,
`ClosePrice = convFloat c5`, `TotalTradedQuantity = convFloat c6`,
`TotalTradedValue = convFloat c7`, `PreviousDayClosePrice = convFloat c8` and every other field
at its zero value, whatever cell 0 and the cells from index 9 on hold (a missing cell leaves the
zero value, which is also what the conversion of the empty text gives); it is this record,
with the date and time of the page, that a row in the window hands to `write`; and the example
row of the specification gives 120 trades, high 505, low 495, close 500, quantity 10000,
value 5000000 and previous close 498. -/
theorem C2_column_mapping :
    (∀ (c0 c1 c2 c3 c4 c5 c6 c7 c8 : String) (more : List String),
      tdForEach (c0 :: c1 :: c2 :: c3 :: c4 :: c5 :: c6 :: c7 :: c8 :: more) 0 Stock.zero =
        { Stock.zero with
          SecurityName := c1
          TotalTrades := convInt c2
          HighPrice := convFloat c3
          LowPrice := convFloat c4
          ClosePrice := convFloat c5
          TotalTradedQuantity := convFloat c6
          TotalTradedValue := convFloat c7
          PreviousDayClosePrice := convFloat c8 }) ∧
    (∀ (cells : List String),
      tdForEach cells 0 Stock.zero =
        { Stock.zero with
          SecurityName := cells.getD 1 ""
          TotalTrades := convInt (cells.getD 2 "")
          HighPrice := convFloat (cells.getD 3 "")
          LowPrice := convFloat (cells.getD 4 "")
          ClosePrice := convFloat (cells.getD 5 "")
          TotalTradedQuantity := convFloat (cells.getD 6 "")
          TotalTradedValue := convFloat (cells.getD 7 "")
          PreviousDayClosePrice := convFloat (cells.getD 8 "") }) ∧
    (∀ (len : Nat) (st : LoopState) (i : Nat) (row : Row) (s0 s1 : String) (tl : List String),
      inWindow len i = true → st.s = s0 :: s1 :: tl → row.td.getD 1 "" ≠ "" →
      rowCallback len st i row = Except.ok
        { s := st.s, wg := st.wg + 1,
          tasks := st.tasks ++ [stamp (tdForEach row.td 0 Stock.zero) s0 s1] }) ∧
    (∀ (c0 : String) (more : List String),
      tdForEach (c0 :: "ABC Bank Ltd." :: "120" :: "505.0" :: "495.0" :: "500.0" :: "10000" ::
          "5000000" :: "498.0" :: more) 0 Stock.zero =
        { Stock.zero with
          SecurityName := "ABC Bank Ltd."
          TotalTrades := 120
          HighPrice := Float64.ofNat 505
          LowPrice := Float64.ofNat 495
          ClosePrice := Float64.ofNat 500
          TotalTradedQuantity := Float64.ofNat 10000
          TotalTradedValue := Float64.ofNat 5000000
          PreviousDayClosePrice := Float64.ofNat 498 }) := by
  have key : ∀ (c0 c1 c2 c3 c4 c5 c6 c7 c8 : String) (more : List String),
      tdForEach (c0 :: c1 :: c2 :: c3 :: c4 :: c5 :: c6 :: c7 :: c8 :: more) 0 Stock.zero =
        { Stock.zero with
          SecurityName := c1
          TotalTrades := convInt c2
          HighPrice := convFloat c3
          LowPrice := convFloat c4
          ClosePrice := convFloat c5
          TotalTradedQuantity := convFloat c6
          TotalTradedValue := convFloat c7
          PreviousDayClosePrice := convFloat c8 } := by
    intro c0 c1 c2 c3 c4 c5 c6 c7 c8 more
    rw [tdForEach_eq]
    rfl
  refine ⟨key, tdForEach_eq, ?_, ?_⟩
  · intro len st i row s0 s1 tl hw hs hn
    exact rowCallback_data len st i row s0 s1 tl hw hs hn
  · intro c0 more
    rw [key]
    have h1 : convInt "120" = 120 := by decide
    have h2 : convFloat "505.0" = Float64.ofNat 505 := by rfl
    have h3 : convFloat "495.0" = Float64.ofNat 495 := by rfl
    have h4 : convFloat "500.0" = Float64.ofNat 500 := by rfl
    have h5 : convFloat "10000" = Float64.ofNat 10000 := by rfl
    have h6 : convFloat "5000000" = Float64.ofNat 5000000 := by rfl
    have h7 : convFloat "498.0" = Float64.ofNat 498 := by rfl
    rw [h1, h2, h3, h4, h5, h6, h7]

/-- C2, witness: row 2 of a table of seven rows, with the example cells. -/
theorem C2_column_mapping_witness :
    rowCallback 7 ⟨["2021-06-24", "15:00:00"], 0, []⟩ 2 exampleRow = Except.ok
      { s := ["2021-06-24", "15:00:00"], wg := 1,
        tasks := [stamp (tdForEach exampleCells 0 Stock.zero) "2021-06-24" "15:00:00"] } :=
  C2_column_mapping.2.2.1 7 ⟨["2021-06-24", "15:00:00"], 0, []⟩ 2 exampleRow
    "2021-06-24" "15:00:00" [] (by decide) rfl (by decide)

/-! ## Numeric defaulting (C4) -/

set_option maxRecDepth 100000 in
/-- C4 (as stated, refuted): the text `9223372036854775808` does not parse as an `int` (range
error) and `convInt` returns the largest `int`, not 0; the text `1e309` does not parse as a
`float64` (range error) and `convFloat` returns the infinity, not 0. -/
theorem C4_counterexample :
    ((Atoi "9223372036854775808").2 = some NumError.ErrRange ∧
      convInt "9223372036854775808" = 9223372036854775807) ∧
    ((ParseFloat "1e309").2 = some NumError.ErrRange ∧
      convFloat "1e309" = Float64.inf false) := by
  refine ⟨⟨by decide, by decide⟩, ⟨by rfl, by rfl⟩⟩

/-- C4 (amended): when the parse fails with a syntax error (the text is not a number) `convInt`
and `convFloat` return 0; when it fails with a range error `convInt` returns the bound of `int`
on that side and `convFloat` the infinity of that sign; when it succeeds each returns the
parsed value.  So a row in the window with a non-empty name always hands a record to `write`,
and a float field of it whose cell is not a number is 0. -/
theorem C4_numeric_defaulting (str : String) :
    ((Atoi str).2 = some NumError.ErrSyntax → convInt str = 0) ∧
    ((Atoi str).2 = some NumError.ErrRange → convInt str = maxInt64 ∨ convInt str = minInt64) ∧
    ((Atoi str).2 = none → convInt str = (Atoi str).1) ∧
    ((ParseFloat str).2 = some NumError.ErrSyntax → convFloat str = Float64.zero) ∧
    ((ParseFloat str).2 = some NumError.ErrRange →
      convFloat str = Float64.inf false ∨ convFloat str = Float64.inf true) ∧
    ((ParseFloat str).2 = none → convFloat str = (ParseFloat str).1) ∧
    (∀ (len : Nat) (st : LoopState) (i : Nat) (row : Row) (s0 s1 : String) (tl : List String),
      inWindow len i = true → st.s = s0 :: s1 :: tl → row.td.getD 1 "" ≠ "" →
      ∃ data, rowCallback len st i row =
          Except.ok { s := st.s, wg := st.wg + 1, tasks := st.tasks ++ [data] } ∧
        (row.td.getD 2 "" = str → (Atoi str).2 = some NumError.ErrSyntax → data.TotalTrades = 0) ∧
        (row.td.getD 3 "" = str → (ParseFloat str).2 = some NumError.ErrSyntax →
          data.HighPrice = Float64.zero) ∧
        (row.td.getD 4 "" = str → (ParseFloat str).2 = some NumError.ErrSyntax →
          data.LowPrice = Float64.zero) ∧
        (row.td.getD 5 "" = str → (ParseFloat str).2 = some NumError.ErrSyntax →
          data.ClosePrice = Float64.zero) ∧
        (row.td.getD 6 "" = str → (ParseFloat str).2 = some NumError.ErrSyntax →
          data.TotalTradedQuantity = Float64.zero) ∧
        (row.td.getD 7 "" = str → (ParseFloat str).2 = some NumError.ErrSyntax →
          data.TotalTradedValue = Float64.zero) ∧
        (row.td.getD 8 "" = str → (ParseFloat str).2 = some NumError.ErrSyntax →
          data.PreviousDayClosePrice = Float64.zero)) := by
  have hi : (Atoi str).2 = some NumError.ErrSyntax → convInt str = 0 := by
    intro h
    rcases Atoi_cases str with ⟨_, h0⟩ | ⟨h1, _⟩ | h1
    · exact h0
    · rw [h] at h1; cases h1
    · rw [h] at h1; cases h1
  have hf : (ParseFloat str).2 = some NumError.ErrSyntax → convFloat str = Float64.zero := by
    intro h
    rcases ParseFloat_cases str with ⟨_, h0⟩ | ⟨h1, _⟩ | h1
    · exact h0
    · rw [h] at h1; cases h1
    · rw [h] at h1; cases h1
  refine ⟨hi, ?_, fun _ => rfl, hf, ?_, fun _ => rfl, ?_⟩
  · intro h
    rcases Atoi_cases str with ⟨h1, _⟩ | ⟨_, h0⟩ | h1
    · rw [h] at h1; cases h1
    · exact h0
    · rw [h] at h1; cases h1
  · intro h
    rcases ParseFloat_cases str with ⟨h1, _⟩ | ⟨_, neg, h0⟩ | h1
    · rw [h] at h1; cases h1
    · cases neg
      · exact Or.inl h0
      · exact Or.inr h0
    · rw [h] at h1; cases h1
  · intro len st i row s0 s1 tl hw hs hn
    refine ⟨_, rowCallback_data len st i row s0 s1 tl hw hs hn, ?_⟩
    rw [tdForEach_eq]
    refine ⟨?_, ?_, ?_, ?_, ?_, ?_, ?_⟩ <;> rintro rfl h
    · exact hi h
    all_goals exact hf h

/-- C4, witness: the cell text `n/a` is a syntax error for both parsers, and the example row with
`n/a` as its high price still gives a record, with `HighPrice` 0. -/
theorem C4_numeric_defaulting_witness :
    convInt "n/a" = 0 ∧ convFloat "n/a" = Float64.zero ∧
    ∃ data, rowCallback 7 ⟨["2021-06-24", "15:00:00"], 0, []⟩ 2
        ⟨"", ["1", "ABC Bank Ltd.", "120", "n/a", "495.0"]⟩ =
          Except.ok { s := ["2021-06-24", "15:00:00"], wg := 1, tasks := [data] } ∧
        data.HighPrice = Float64.zero := by
  have h := C4_numeric_defaulting "n/a"
  refine ⟨h.1 (by decide), h.2.2.2.1 (by decide), ?_⟩
  obtain ⟨data, h1, _, h3, _⟩ := h.2.2.2.2.2.2 7 ⟨["2021-06-24", "15:00:00"], 0, []⟩ 2
    ⟨"", ["1", "ABC Bank Ltd.", "120", "n/a", "495.0"]⟩ "2021-06-24" "15:00:00" []
    (by decide) rfl (by decide)
  exact ⟨data, h1, h3 (by decide) (by decide)⟩

/-! ## The date of the page (C5) -/

/-- C5: when row 0 has the metadata text `"As of "`, a date token `D`, one `U+00A0` and a time
token `T`, neither token holding `U+00A0`, the row loop ends normally and every record it hands
to `write` has `BusinessDate = D` and `LastUpdatedTime = T`. -/
theorem C5_business_date (D T : String) (cells : List String) (rest : List Row)
    (hD : nbsp ∉ D.data) (hT : nbsp ∉ T.data) :
    ∃ st, onHTMLRows (⟨"As of " ++ D ++ String.singleton nbsp ++ T, cells⟩ :: rest) = Except.ok st ∧
      st.tasks.length = (dataRows (⟨"As of " ++ D ++ String.singleton nbsp ++ T, cells⟩ :: rest)).length ∧
      ∀ t ∈ st.tasks, t.BusinessDate = D ∧ t.LastUpdatedTime = T := by
  have hm : metaTokens ⟨"As of " ++ D ++ String.singleton nbsp ++ T, cells⟩ = [D, T] := by
    rw [String.append_assoc, String.append_assoc]
    exact metaTokens_asOf D T cells hD hT
  refine ⟨_, onHTMLRows_ok _ rest D T [] hm, by simp, ?_⟩
  intro t ht
  simp only [List.mem_map] at ht
  obtain ⟨r, _, rfl⟩ := ht
  exact ⟨rfl, rfl⟩

/-- C5, witness: the page of 2021-06-24, 15:00:00, with the example row. -/
theorem C5_business_date_witness :
    ∃ st, onHTMLRows (tableOf goodMeta [exampleRow]) = Except.ok st ∧
      st.tasks.length = 1 ∧
      ∀ t ∈ st.tasks, t.BusinessDate = "2021-06-24" ∧ t.LastUpdatedTime = "15:00:00" :=
  C5_business_date "2021-06-24" "15:00:00" []
    (blankRow :: ([exampleRow] ++ [blankRow, blankRow, blankRow, blankRow]))
    (by decide) (by decide)

/-! ## A metadata row without time token (C10) -/

theorem rowCallback_one_token (len : Nat) (st : LoopState) (i : Nat) (row : Row) (t : String)
    (hs : st.s = [t]) :
    rowCallback len st (i + 1) row =
      if inWindow len (i + 1) && decide (row.td.getD 1 "" ≠ "") then
        Except.error (Panic.indexOutOfRange 1 1)
      else Except.ok st := by
  have hi : (!inWindow len (i + 1) && decide (i + 1 = 0)) = false := by simp
  have hname := tdForEach_name row.td
  unfold rowCallback
  simp only [hi, hs]
  cases hw : inWindow len (i + 1)
  · simp [Stock.zero, ← hs]
  · by_cases hn : row.td.getD 1 "" = ""
    · simp only [if_true, hname, hn, ne_eq, not_true_eq_false, if_false, decide_False,
        Bool.and_false, Bool.false_eq_true]
      rw [← hs]
    · simp only [if_true, hname, hn, ne_eq, not_false_eq_true, decide_True, Bool.and_self,
        Bool.false_eq_true, if_false]

theorem rowForEach_one_token (len : Nat) (rs : List Row) (i : Nat) (st : LoopState) (t : String)
    (hs : st.s = [t]) :
    rowForEach len rs (i + 1) st =
      if dataRowsFrom len rs (i + 1) = [] then Except.ok st
      else Except.error (Panic.indexOutOfRange 1 1) := by
  induction rs generalizing i with
  | nil => simp [rowForEach, dataRowsFrom]
  | cons row rest ih =>
    rw [rowForEach, rowCallback_one_token len st i row t hs, dataRowsFrom]
    cases hc : (inWindow len (i + 1) && decide (row.td.getD 1 "" ≠ ""))
    · simp only [Bool.false_eq_true, if_false]
      exact ih (i + 1)
    · simp

theorem metaTokens_length (row : Row) : 1 ≤ (metaTokens row).length := by
  have h := splitChars_ne_nil nbsp (stringsTrimPrefix row.pullLeft "As of ").data
  rw [metaTokens, stringsSplit, List.length_map]
  cases hsplit : splitChars nbsp (stringsTrimPrefix row.pullLeft "As of ").data with
  | nil => exact absurd hsplit h
  | cons a b => simp

/-- A table whose metadata row has a single token and which has a data row makes the row loop
panic. -/
theorem onHTMLRows_one_token (row : Row) (rest : List Row)
    (hm : (metaTokens row).length < 2) (hd : dataRows (row :: rest) ≠ []) :
    onHTMLRows (row :: rest) = Except.error (Panic.indexOutOfRange 1 1) := by
  have h1 := metaTokens_length row
  obtain ⟨t, ht⟩ : ∃ t, metaTokens row = [t] := by
    cases hmt : metaTokens row with
    | nil => rw [hmt] at h1; simp at h1
    | cons a b =>
      cases b with
      | nil => exact ⟨a, rfl⟩
      | cons c d => rw [hmt] at hm; simp at hm; omega
  unfold onHTMLRows
  rw [rowForEach, rowCallback_zero]
  simp only []
  rw [rowForEach_one_token _ _ 0 _ t ht]
  rw [dataRows, dataRowsFrom_zero] at hd
  exact if_neg hd

/-- C10 (the code differs): on a table whose row 0 has an empty metadata text and whose row 2 is a
data row, the row loop panics: `s` has the single token `""` and `s[1]` is out of range.  So
does every table whose metadata text holds no `U+00A0` and which has a data row. -/
theorem C10_malformed_metadata_panics :
    metaTokens ⟨"", []⟩ = [""] ∧
    onHTMLRows (tableOf "" [exampleRow]) = Except.error (Panic.indexOutOfRange 1 1) ∧
    (∀ (row : Row) (rest : List Row), (metaTokens row).length < 2 →
      dataRows (row :: rest) ≠ [] →
      onHTMLRows (row :: rest) = Except.error (Panic.indexOutOfRange 1 1)) := by
  refine ⟨by decide, by rfl, ?_⟩
  intro row rest hm hd
  exact onHTMLRows_one_token row rest hm hd

/-! ## Lemmas on the calendar of package `time` -/

/-- Cutting off up to three whole cycles of length `k` from a remainder below `4 * k + 1`, the
way `absDate` does with `n -= n >> 2`: the last cycle may be one day longer. -/
theorem cut_cycle (r k : Int) (hk : 0 < k) (h0 : 0 ≤ r) (h1 : r < 4 * k + 1) :
    0 ≤ r / k - r / k / 4 ∧ r / k - r / k / 4 ≤ 3 ∧ 0 ≤ r - k * (r / k - r / k / 4) ∧
    (r - k * (r / k - r / k / 4) < k ∨
      (r / k - r / k / 4 = 3 ∧ r - k * (r / k - r / k / 4) = k)) := by
  have hq0 : 0 ≤ r / k := Int.ediv_nonneg h0 hk.le
  have hq4 : r / k ≤ 4 := by
    have : r / k < 5 := by
      apply Int.ediv_lt_of_lt_mul hk
      omega
    omega
  have hm := Int.emod_add_ediv r k
  have hm0 := Int.emod_nonneg r hk.ne'
  have hm1 := Int.emod_lt_of_pos r hk
  generalize r / k = q at *
  generalize r % k = m at *
  have hq : q = 0 ∨ q = 1 ∨ q = 2 ∨ q = 3 ∨ q = 4 := by omega
  rcases hq with rfl | rfl | rfl | rfl | rfl <;> simp <;> omega

theorem yearDay_spec (d : Int) :
    yearStart ((yearDay d).1 - absoluteZeroYear) + (yearDay d).2 = d ∧ 0 ≤ (yearDay d).2 ∧
    (yearDay d).2 < yearStart ((yearDay d).1 - absoluteZeroYear + 1) -
      yearStart ((yearDay d).1 - absoluteZeroYear) := by
  simp only [yearDay, yearStart]
  generalize hb : d / 146097 = b
  generalize hr1 : d - 146097 * b = r1
  have h1 : 0 ≤ r1 ∧ r1 < 146097 := by omega
  have hc := cut_cycle r1 36524 (by norm_num) h1.1 (by omega)
  generalize r1 / 36524 - r1 / 36524 / 4 = c at hc ⊢
  generalize hr2 : r1 - 36524 * c = r2 at hc ⊢
  generalize hf : r2 / 1461 = f
  generalize hr3 : r2 - 1461 * f = r3
  have h3 : 0 ≤ r3 ∧ r3 < 1461 := by omega
  have hg := cut_cycle r3 365 (by norm_num) h3.1 (by omega)
  generalize r3 / 365 - r3 / 365 / 4 = g at hg ⊢
  generalize hyd : r3 - 365 * g = yd at hg ⊢
  have e1 : 400 * b + 100 * c + 4 * f + g + absoluteZeroYear - absoluteZeroYear =
      400 * b + 100 * c + 4 * f + g := by ring
  rw [e1]
  have hf' : 0 ≤ f ∧ f ≤ 24 := by omega
  have q4 : (400 * b + 100 * c + 4 * f + g) / 4 = 100 * b + 25 * c + f := by omega
  have q100 : (400 * b + 100 * c + 4 * f + g) / 100 = 4 * b + c := by omega
  have q400 : (400 * b + 100 * c + 4 * f + g) / 400 = b := by omega
  rw [q4, q100, q400]
  refine ⟨by omega, by omega, ?_⟩
  by_cases h4 : g = 3
  · have p4 : (400 * b + 100 * c + 4 * f + g + 1) / 4 = 100 * b + 25 * c + f + 1 := by omega
    by_cases h100 : f = 24
    · have p100 : (400 * b + 100 * c + 4 * f + g + 1) / 100 = 4 * b + c + 1 := by omega
      by_cases h400 : c = 3
      · have p400 : (400 * b + 100 * c + 4 * f + g + 1) / 400 = b + 1 := by omega
        rw [p4, p100, p400]; omega
      · have p400 : (400 * b + 100 * c + 4 * f + g + 1) / 400 = b := by omega
        rw [p4, p100, p400]; omega
    · have p100 : (400 * b + 100 * c + 4 * f + g + 1) / 100 = 4 * b + c := by omega
      have p400 : (400 * b + 100 * c + 4 * f + g + 1) / 400 = b := by omega
      rw [p4, p100, p400]; omega
  · have p4 : (400 * b + 100 * c + 4 * f + g + 1) / 4 = 100 * b + 25 * c + f := by omega
    have p100 : (400 * b + 100 * c + 4 * f + g + 1) / 100 = 4 * b + c := by omega
    have p400 : (400 * b + 100 * c + 4 * f + g + 1) / 400 = b := by omega
    rw [p4, p100, p400]; omega

theorem yearStart_succ (y : Int) :
    yearStart (y + 1) - yearStart y = if isLeap (y + absoluteZeroYear) then 366 else 365 := by
  simp only [yearStart, isLeap, absoluteZeroYear]
  split <;> simp_all <;> omega

theorem yearStart_mono (a b : Int) (h : a ≤ b) : yearStart a ≤ yearStart b := by
  simp only [yearStart]
  omega

/-- The year and the day of the year of the day before. -/
theorem yearDay_pred (d : Int) :
    (1 ≤ (yearDay d).2 ∧ yearDay (d - 1) = ((yearDay d).1, (yearDay d).2 - 1)) ∨
    ((yearDay d).2 = 0 ∧ yearDay (d - 1) =
      ((yearDay d).1 - 1, if isLeap ((yearDay d).1 - 1) then 365 else 364)) := by
  obtain ⟨a1, a2, a3⟩ := yearDay_spec d
  obtain ⟨b1, b2, b3⟩ := yearDay_spec (d - 1)
  generalize hY : (yearDay d).1 = Y at *
  generalize hyd : (yearDay d).2 = yd at *
  have hp : yearDay (d - 1) = ((yearDay (d - 1)).1, (yearDay (d - 1)).2) := rfl
  rw [hp]
  generalize hY' : (yearDay (d - 1)).1 = Y' at *
  generalize hyd' : (yearDay (d - 1)).2 = yd' at *
  have s1 := yearStart_succ (Y - absoluteZeroYear)
  have s2 := yearStart_succ (Y' - absoluteZeroYear)
  have s3 := yearStart_succ (Y - 1 - absoluteZeroYear)
  have e1 : Y - absoluteZeroYear + absoluteZeroYear = Y := by ring
  have e2 : Y' - absoluteZeroYear + absoluteZeroYear = Y' := by ring
  have e3 : Y - 1 - absoluteZeroYear + absoluteZeroYear = Y - 1 := by ring
  have e4 : Y - 1 - absoluteZeroYear + 1 = Y - absoluteZeroYear := by ring
  rw [e1] at s1
  rw [e2] at s2
  rw [e3, e4] at s3
  have hle : Y' ≤ Y := by
    by_contra hc
    have := yearStart_mono (Y - absoluteZeroYear + 1) (Y' - absoluteZeroYear) (by omega)
    omega
  have hge : Y - 1 ≤ Y' := by
    by_contra hc
    have := yearStart_mono (Y' - absoluteZeroYear + 1) (Y - 1 - absoluteZeroYear) (by omega)
    split at s3 <;> omega
  by_cases h0 : yd = 0
  · right
    refine ⟨h0, ?_⟩
    have hY1 : Y' = Y - 1 := by
      by_contra hc
      have : Y' = Y := by omega
      subst this
      omega
    subst hY1
    split at s3
    · rename_i hl
      rw [if_pos hl, Prod.mk.injEq]
      exact ⟨rfl, by omega⟩
    · rename_i hl
      rw [if_neg hl, Prod.mk.injEq]
      exact ⟨rfl, by omega⟩
  · left
    refine ⟨by omega, ?_⟩
    have hY1 : Y' = Y := by
      by_contra hc
      have : Y' = Y - 1 := by omega
      subst this
      rw [e4] at b3
      omega
    subst hY1
    rw [Prod.mk.injEq]
    exact ⟨rfl, by omega⟩

set_option maxRecDepth 100000 in
/-- Month and day of the day before within a year, on the table of the library. -/
theorem monthDay_pred_nat (leap : Bool) :
    ∀ n : Nat, n < (if leap then 365 else 364) →
      (monthDay leap (n : Int) =
        if (monthDay leap ((n : Int) + 1)).2 > 1 then
          ((monthDay leap ((n : Int) + 1)).1, (monthDay leap ((n : Int) + 1)).2 - 1)
        else
          ((monthDay leap ((n : Int) + 1)).1 - 1,
            daysInMonthOf leap ((monthDay leap ((n : Int) + 1)).1 - 1))) ∧
      ((monthDay leap ((n : Int) + 1)).2 > 1 ∨ (monthDay leap ((n : Int) + 1)).1 > 1) := by
  cases leap <;> decide

theorem monthDay_zero (leap : Bool) : monthDay leap 0 = (1, 1) := by
  cases leap <;> decide

theorem monthDay_last (leap : Bool) : monthDay leap (if leap then 365 else 364) = (12, 31) := by
  cases leap <;> decide

/-- The calendar date of an absolute day number, as `Year()`, `Month()`, `Day()` give it. -/
theorem civil_eq (t : Time) :
    t.civil = ⟨(yearDay (t.abs / secondsPerDay)).1,
      (monthDay (isLeap (yearDay (t.abs / secondsPerDay)).1) (yearDay (t.abs / secondsPerDay)).2).1,
      (monthDay (isLeap (yearDay (t.abs / secondsPerDay)).1) (yearDay (t.abs / secondsPerDay)).2).2⟩ :=
  rfl

/-- One day (86400 seconds) earlier the calendar date is the previous calendar day. -/
theorem civil_pred (t u : Time) (h : u.abs = t.abs - 86400) : u.civil = prevDay t.civil := by
  rw [civil_eq, civil_eq, h]
  have hd : (t.abs - 86400) / secondsPerDay = t.abs / secondsPerDay - 1 := by
    simp only [secondsPerDay]; omega
  rw [hd]
  generalize t.abs / secondsPerDay = d
  obtain ⟨_, a2, a3⟩ := yearDay_spec d
  rw [yearStart_succ] at a3
  have e1 : (yearDay d).1 - absoluteZeroYear + absoluteZeroYear = (yearDay d).1 := by ring
  rw [e1] at a3
  rcases yearDay_pred d with ⟨h1, h2⟩ | ⟨h1, h2⟩
  · rw [h2]
    simp only []
    generalize (yearDay d).1 = Y at *
    generalize hyd : (yearDay d).2 = yd at *
    obtain ⟨n, rfl⟩ : ∃ n : Nat, yd = (n : Int) + 1 := ⟨(yd - 1).toNat, by omega⟩
    have hn : n < (if isLeap Y then 365 else 364) := by
      split at a3 <;> simp_all <;> omega
    obtain ⟨p1, p2⟩ := monthDay_pred_nat (isLeap Y) n hn
    have e2 : (n : Int) + 1 - 1 = n := by ring
    rw [e2, p1]
    unfold prevDay
    simp only [gt_iff_lt] at p2 ⊢
    by_cases hdd : 1 < (monthDay (isLeap Y) ((n : Int) + 1)).2
    · simp only [hdd, if_true]
    · have hm : 1 < (monthDay (isLeap Y) ((n : Int) + 1)).1 := by
        rcases p2 with p2 | p2
        · exact absurd p2 hdd
        · exact p2
      simp only [hdd, hm, if_true, if_false, daysInMonth]
  · rw [h2]
    simp only [h1, monthDay_zero, monthDay_last]
    unfold prevDay
    simp

theorem add_day (t : Time) (h0 : 0 ≤ t.nsec) (h1 : t.nsec < 1000000000) :
    t.Add (-24 * Hour) = ⟨t.abs - 86400, t.nsec⟩ := by
  have e1 : Int.tdiv (-24 * Hour) 1000000000 = -86400 := by decide
  have e2 : Int.tmod (-24 * Hour) 1000000000 = 0 := by decide
  unfold Time.Add
  simp only [e1, e2, Int.add_zero]
  rw [if_neg (by omega), if_neg (by omega)]
  rfl

theorem reportURL_eq (t : Time) : reportURL (dateParam t) = urlOfDate t.civil := rfl

/-! ## Lemmas on the scheduling loop -/

theorem scheduleLoop_succ (count i : Nat) (now : Time)
    (h0 : 0 ≤ now.nsec) (h1 : now.nsec < 1000000000) :
    (scheduleLoop count (i + 1) now).2 =
      (List.range count).map (fun k => urlOfDate (minusDays now.civil (k + 1))) ∧
    (scheduleLoop count (i + 1) now).1.civil = minusDays now.civil count ∧
    0 ≤ (scheduleLoop count (i + 1) now).1.nsec ∧
    (scheduleLoop count (i + 1) now).1.nsec < 1000000000 := by
  induction count generalizing i now with
  | zero => exact ⟨rfl, rfl, h0, h1⟩
  | succ n ih =>
    have hadd := add_day now h0 h1
    have hc : (now.Add (-24 * Hour)).civil = prevDay now.civil :=
      civil_pred now _ (by rw [hadd])
    have hm : ∀ k, minusDays (prevDay now.civil) k = minusDays now.civil (k + 1) := by
      intro k
      induction k with
      | zero => rfl
      | succ k ih => rw [minusDays, ih]; rfl
    obtain ⟨r1, r2, r3, r4⟩ := ih (i + 1) (now.Add (-24 * Hour)) (by rw [hadd]; exact h0)
      (by rw [hadd]; exact h1)
    rw [scheduleLoop]
    simp only [Nat.succ_ne_zero, ne_eq, not_false_eq_true, if_true]
    refine ⟨?_, ?_, r3, r4⟩
    · rw [r1, reportURL_eq, hc, List.range_succ_eq_map, List.map_cons, List.map_map]
      congr 1
      apply List.map_congr_left
      intro k _
      simp only [Function.comp, hm]
    · rw [r2, hc, hm]

theorem schedule_eq (now : Time) (n : Nat) (h0 : 0 ≤ now.nsec) (h1 : now.nsec < 1000000000) :
    (schedule now n).2 = (List.range n).map (fun i => urlOfDate (minusDays now.civil i)) ∧
    (schedule now n).1.civil = minusDays now.civil (n - 1) := by
  cases n with
  | zero => exact ⟨rfl, rfl⟩
  | succ n =>
    obtain ⟨r1, r2, _, _⟩ := scheduleLoop_succ n 0 now h0 h1
    rw [schedule, scheduleLoop]
    simp only [ne_eq, not_true_eq_false, if_false]
    refine ⟨?_, ?_⟩
    · rw [r1, reportURL_eq, List.range_succ_eq_map, List.map_cons, List.map_map]
      rfl
    · rw [r2]; rfl

theorem prevDay_before (c : CivilDate) : (prevDay c).before c := by
  unfold prevDay CivilDate.before
  split
  · right; exact ⟨rfl, Or.inr ⟨rfl, by simp⟩⟩
  · split
    · right; exact ⟨rfl, Or.inl (by simp)⟩
    · left; simp

theorem before_trans (a b c : CivilDate) (h1 : a.before b) (h2 : b.before c) : a.before c := by
  unfold CivilDate.before at *
  omega

theorem before_irrefl (a : CivilDate) : ¬ a.before a := by
  unfold CivilDate.before
  omega

theorem minusDays_before (c : CivilDate) (i j : Nat) (h : i < j) :
    (minusDays c j).before (minusDays c i) := by
  induction j with
  | zero => omega
  | succ j ih =>
    by_cases hij : i = j
    · subst hij; exact prevDay_before _
    · exact before_trans _ _ _ (prevDay_before _) (ih (by omega))

/-! ## `time.Date` and the calendar -/

theorem daysSinceEpoch_eq (year : Int) :
    daysSinceEpoch year = yearStart (year - absoluteZeroYear) := by
  simp only [daysSinceEpoch, yearStart]
  generalize year - absoluteZeroYear = y
  generalize hb : y / 400 = b
  generalize hr1 : y - 400 * b = r1
  have h1 : 0 ≤ r1 ∧ r1 < 400 := by omega
  generalize hc : r1 / 100 = c
  generalize hr2 : r1 - 100 * c = r2
  have h2 : 0 ≤ r2 ∧ r2 < 100 ∧ 0 ≤ c ∧ c ≤ 3 := by omega
  generalize hf : r2 / 4 = f
  generalize hr3 : r2 - 4 * f = r3
  have h3 : 0 ≤ r3 ∧ r3 < 4 ∧ 0 ≤ f ∧ f ≤ 24 := by omega
  have hy : y = 400 * b + 100 * c + 4 * f + r3 := by omega
  have q4 : y / 4 = 100 * b + 25 * c + f := by omega
  have q100 : y / 100 = 4 * b + c := by omega
  rw [q4, q100]
  omega

theorem yearDay_unique (y yd : Int) (h0 : 0 ≤ yd)
    (h1 : yd < if isLeap (y + absoluteZeroYear) then 366 else 365) :
    yearDay (yearStart y + yd) = (y + absoluteZeroYear, yd) := by
  obtain ⟨a1, a2, a3⟩ := yearDay_spec (yearStart y + yd)
  have hp : yearDay (yearStart y + yd) =
      ((yearDay (yearStart y + yd)).1, (yearDay (yearStart y + yd)).2) := rfl
  rw [hp]
  generalize (yearDay (yearStart y + yd)).1 = Y at *
  generalize (yearDay (yearStart y + yd)).2 = yd' at *
  have s1 := yearStart_succ y
  have hle : Y - absoluteZeroYear ≤ y := by
    by_contra hc
    have := yearStart_mono (y + 1) (Y - absoluteZeroYear) (by omega)
    split at s1 <;> simp_all <;> omega
  have hge : y ≤ Y - absoluteZeroYear := by
    by_contra hc
    have := yearStart_mono (Y - absoluteZeroYear + 1) y (by omega)
    omega
  have hy : Y - absoluteZeroYear = y := by omega
  rw [hy] at a1
  rw [Prod.mk.injEq]
  exact ⟨by omega, by omega⟩

set_option maxRecDepth 100000 in
theorem monthDay_inv_nat (leap : Bool) :
    ∀ m : Nat, m < 12 → ∀ dd : Nat, dd < 31 → ((dd : Int) + 1 ≤ daysInMonthOf leap ((m : Int) + 1)) →
      monthDay leap
        (daysBefore (m : Int) + (if leap && decide ((m : Int) + 1 ≥ 3) then 1 else 0) + (dd : Int)) =
        ((m : Int) + 1, (dd : Int) + 1) ∧
      daysBefore (m : Int) + (if leap && decide ((m : Int) + 1 ≥ 3) then 1 else 0) + (dd : Int) <
        (if leap then 366 else 365) := by
  cases leap <;> decide

/-- The calendar date of `time.Date(y, m, d, 0, 0, 0, 0, time.UTC)` is `y`-`m`-`d`, for a date of
the calendar. -/
theorem Date_civil (y m d : Int) (hm1 : 1 ≤ m) (hm2 : m ≤ 12) (hd1 : 1 ≤ d)
    (hd2 : d ≤ daysInMonth y m) : (Date y m d).civil = ⟨y, m, d⟩ := by
  obtain ⟨mn, rfl⟩ : ∃ mn : Nat, m = (mn : Int) + 1 := ⟨(m - 1).toNat, by omega⟩
  obtain ⟨dn, rfl⟩ : ∃ dn : Nat, d = (dn : Int) + 1 := ⟨(d - 1).toNat, by omega⟩
  have hdn : dn < 31 := by
    unfold daysInMonth daysInMonthOf at hd2
    split at hd2
    · split at hd2 <;> omega
    · split at hd2 <;> omega
  obtain ⟨p1, p2⟩ := monthDay_inv_nat (isLeap y) mn (by omega) dn hdn hd2
  have e1 : ((mn : Int) + 1 - 1) / 12 = 0 := by omega
  have e2 : ((mn : Int) + 1 - 1) % 12 = mn := by omega
  have e3 : (Date y ((mn : Int) + 1) ((dn : Int) + 1)).abs / secondsPerDay =
      yearStart (y - absoluteZeroYear) +
        (daysBefore (mn : Int) + (if isLeap y && decide ((mn : Int) + 1 ≥ 3) then 1 else 0) +
          (dn : Int)) := by
    simp only [Date, e1, e2, Int.add_zero, daysSinceEpoch_eq, secondsPerDay]
    split <;> simp_all <;> omega
  have hleap : isLeap (y - absoluteZeroYear + absoluteZeroYear) = isLeap y := by
    congr 1; ring
  have hu := yearDay_unique (y - absoluteZeroYear)
    (daysBefore (mn : Int) + (if isLeap y && decide ((mn : Int) + 1 ≥ 3) then 1 else 0) +
      (dn : Int))
    (by
      have : 0 ≤ daysBefore (mn : Int) := by
        have : ∀ k : Nat, k < 12 → 0 ≤ daysBefore (k : Int) := by decide
        exact this mn (by omega)
      split <;> omega)
    (by rw [hleap]; exact p2)
  rw [civil_eq, e3, hu]
  have e4 : y - absoluteZeroYear + absoluteZeroYear = y := by ring
  simp only [e4, p1]

/-! ## Lemmas on `fmt` -/

theorem digitChar_ne_newline : ∀ k : Nat, k < 10 → Nat.digitChar k ≠ '\n' := by
  decide

theorem toDigitsCore_no_newline (fuel n : Nat) (acc : List Char) (h : '\n' ∉ acc) :
    '\n' ∉ Nat.toDigitsCore 10 fuel n acc := by
  induction fuel generalizing n acc with
  | zero => simpa [Nat.toDigitsCore] using h
  | succ f ih =>
    have hcons : '\n' ∉ Nat.digitChar (n % 10) :: acc := by
      intro hm
      rcases List.mem_cons.1 hm with e | e
      · exact digitChar_ne_newline _ (Nat.mod_lt n (by decide)) e.symm
      · exact h e
    rw [Nat.toDigitsCore]
    split
    · exact hcons
    · exact ih _ _ hcons

theorem natRepr_no_newline (n : Nat) : '\n' ∉ (Nat.repr n).data := by
  simp only [Nat.repr, Nat.toDigits, List.asString]
  exact toDigitsCore_no_newline _ _ _ (by simp)

theorem fmtInt_no_newline (i : Int) : '\n' ∉ (fmtInt i).data := by
  cases i with
  | ofNat n => exact natRepr_no_newline n
  | negSucc n =>
    show '\n' ∉ ("-" ++ Nat.repr (n + 1)).data
    rw [String.data_append]
    intro hm
    rcases List.mem_append.1 hm with e | e
    · revert e; decide
    · exact natRepr_no_newline _ e

theorem urlOfDate_no_newline (c : CivilDate) : '\n' ∉ (urlOfDate c).data := by
  unfold urlOfDate
  simp only [String.data_append, List.mem_append, not_or]
  refine ⟨⟨by decide, ⟨⟨⟨⟨fmtInt_no_newline _, by decide⟩, fmtInt_no_newline _⟩, by decide⟩,
    fmtInt_no_newline _⟩⟩, by decide⟩

theorem onScrapedURL_newline (t : Time) : '\n' ∈ (onScrapedURL t).data := by
  unfold onScrapedURL reportURL
  simp only [String.data_append, List.mem_append]
  left; right; right
  decide

/-! ## The date sequence (C3) -/

theorem foldl_AddURL (urls acc : List String) (h : acc.length + urls.length ≤ 10000) :
    urls.foldl AddURL acc = acc ++ urls := by
  induction urls generalizing acc with
  | nil => simp
  | cons u rest ih =>
    simp only [List.length_cons] at h
    have hlt : ¬ acc.length ≥ 10000 := by omega
    rw [List.foldl_cons, AddURL, if_neg hlt, ih _ (by simp; omega)]
    simp

theorem queued_eq (urls : List String) (h : urls.length ≤ 10000) : queued urls = urls := by
  rw [queued, foldl_AddURL urls [] (by simpa using h)]
  rfl

theorem civil_minus (t : Time) (i : Nat) :
    (⟨t.abs - 86400 * (i : Int), t.nsec⟩ : Time).civil = minusDays t.civil i := by
  induction i with
  | zero => simp [minusDays]
  | succ i ih =>
    rw [minusDays, ← ih]
    apply civil_pred
    simp only []
    push_cast
    ring

/-- C3: for every start time `now` (a well-formed `time.Time`) and every count `n`, the
scheduling loop hands exactly `n` URLs to `q.AddURL`; the `i`-th one is the report URL with the
unpadded decimal year, month and day of the calendar date of `now` minus `i` days; these dates
go down by one calendar day at each step, so they are strictly descending and pairwise
different; `n = 0` gives the empty sequence; a queue of capacity 10000 holds them all when
`n <= 10000`; and the start time `time.Date(y, m, d, 0, 0, 0, 0, time.UTC)` of a calendar date
has that calendar date. -/
theorem C3_date_sequence (now : Time) (n : Nat)
    (h0 : 0 ≤ now.nsec) (h1 : now.nsec < 1000000000) :
    (schedule now n).2.length = n ∧
    (∀ i, i < n → (schedule now n).2[i]? = some (urlOfDate (minusDays now.civil i))) ∧
    (∀ i, minusDays now.civil (i + 1) = prevDay (minusDays now.civil i)) ∧
    (∀ i j, i < j → (minusDays now.civil j).before (minusDays now.civil i)) ∧
    (∀ i j, i ≠ j → minusDays now.civil i ≠ minusDays now.civil j) ∧
    (schedule now 0).2 = [] ∧
    (n ≤ 10000 → queued (schedule now n).2 = (schedule now n).2) ∧
    (∀ y m d : Int, 1 ≤ m → m ≤ 12 → 1 ≤ d → d ≤ daysInMonth y m →
      (Date y m d).civil = ⟨y, m, d⟩ ∧ (Date y m d).nsec = 0) := by
  have hs := (schedule_eq now n h0 h1).1
  have hlen : (schedule now n).2.length = n := by rw [hs]; simp
  refine ⟨hlen, ?_, fun _ => rfl, minusDays_before _, ?_, rfl, ?_, ?_⟩
  · intro i hi
    rw [hs, List.getElem?_map, List.getElem?_range hi]
    rfl
  · intro i j hij he
    rcases Nat.lt_or_gt_of_ne hij with h | h
    · have := minusDays_before now.civil i j h
      rw [he] at this
      exact before_irrefl _ this
    · have := minusDays_before now.civil j i h
      rw [he] at this
      exact before_irrefl _ this
  · intro hn
    exact queued_eq _ (by rw [hlen]; exact hn)
  · intro y m d hm1 hm2 hd1 hd2
    exact ⟨Date_civil y m d hm1 hm2 hd1 hd2, rfl⟩

/-- C3, witness: the run of `main`, from 2021-06-24 over 3800 days: 3800 URLs, the first for
2021-6-24, the second for 2021-6-23, the last for 2011-1-29. -/
theorem C3_date_sequence_witness :
    (schedule mainStart mainCount).2.length = 3800 ∧
    (schedule mainStart mainCount).2[0]? =
      some "http://www.nepalstock.com/todaysprice?startDate=2021-6-24&_limit=300" ∧
    (schedule mainStart mainCount).2[1]? =
      some "http://www.nepalstock.com/todaysprice?startDate=2021-6-23&_limit=300" ∧
    (schedule mainStart mainCount).2[3799]? =
      some "http://www.nepalstock.com/todaysprice?startDate=2011-1-29&_limit=300" ∧
    queued (schedule mainStart mainCount).2 = (schedule mainStart mainCount).2 := by
  have h := C3_date_sequence mainStart mainCount (by decide) (by decide)
  have h0 : minusDays mainStart.civil 0 = ⟨2021, 6, 24⟩ := by
    rw [← civil_minus]; decide
  have h1 : minusDays mainStart.civil 1 = ⟨2021, 6, 23⟩ := by
    rw [← civil_minus]; decide
  have h3799 : minusDays mainStart.civil 3799 = ⟨2011, 1, 29⟩ := by
    rw [← civil_minus]; decide
  refine ⟨h.1, ?_, ?_, ?_, h.2.2.2.2.2.2.1 (by decide)⟩
  · rw [h.2.1 0 (by decide), h0]; rfl
  · rw [h.2.1 1 (by decide), h1]; rfl
  · rw [h.2.1 3799 (by decide), h3799]; rfl

/-! ## The requests of a run (C8) -/

/-- The URL that `OnScraped` visits is none of the scheduled URLs: it holds a line feed. -/
theorem onScrapedURL_not_mem (now t : Time) (n : Nat)
    (h0 : 0 ≤ now.nsec) (h1 : now.nsec < 1000000000) :
    onScrapedURL t ∉ (schedule now n).2 := by
  rw [(schedule_eq now n h0 h1).1]
  intro hm
  obtain ⟨i, _, hi⟩ := List.mem_map.1 hm
  have h := onScrapedURL_newline t
  rw [← hi] at h
  exact urlOfDate_no_newline _ h

/-- C8 (the code differs): in the run of `main` (from 2021-06-24, 3800 days) the variable `now`
ends at 2011-01-29; as soon as one page has been scraped the `OnScraped` callback asks the
collector for one more URL, the one of that last date with a line feed after the day, which is
none of the 3800 scheduled URLs. -/
theorem C8_onScraped_extra_request :
    onScrapedURL (schedule mainStart mainCount).1 =
      "http://www.nepalstock.com/todaysprice?startDate=2011-1-29\n&_limit=300" ∧
    onScrapedURL (schedule mainStart mainCount).1 ∉ (schedule mainStart mainCount).2 ∧
    requested mainStart mainCount 1 = (schedule mainStart mainCount).2 ++
      ["http://www.nepalstock.com/todaysprice?startDate=2011-1-29\n&_limit=300"] ∧
    (requested mainStart mainCount 1).length = 3801 := by
  have hv0 : (0 : Int) ≤ mainStart.nsec := by decide
  have hv1 : mainStart.nsec < 1000000000 := by decide
  have hs := schedule_eq mainStart mainCount hv0 hv1
  have hc : (schedule mainStart mainCount).1.civil = ⟨2011, 1, 29⟩ := by
    rw [hs.2, ← civil_minus]; decide
  have hfields : ∀ t : Time, t.civil = ⟨2011, 1, 29⟩ → t.Year = 2011 ∧ t.Month = 1 ∧ t.Day = 29 :=
    fun t ht => ⟨congrArg CivilDate.year ht, congrArg CivilDate.month ht,
      congrArg CivilDate.day ht⟩
  obtain ⟨hy, hm, hd⟩ := hfields _ hc
  have hu : onScrapedURL (schedule mainStart mainCount).1 =
      "http://www.nepalstock.com/todaysprice?startDate=2011-1-29\n&_limit=300" := by
    rw [onScrapedURL, dateParam, hy, hm, hd]
    decide
  have hlen : (schedule mainStart mainCount).2.length = 3800 := by
    rw [hs.1]; simp [mainCount]
  have hq : queued (schedule mainStart mainCount).2 = (schedule mainStart mainCount).2 :=
    queued_eq _ (by rw [hlen]; decide)
  refine ⟨hu, onScrapedURL_not_mem _ _ _ hv0 hv1, ?_, ?_⟩
  · rw [requested, hq, hu]; rfl
  · rw [requested, hq, List.length_append, hlen]; rfl

/-! ## Resolution and persistence (C7) -/

theorem find_first (companies pre post : List Company) (c : Company) (name : String)
    (hsplit : companies = pre ++ c :: post)
    (hpre : ∀ x ∈ pre, x.SecurityName ≠ name) (hc : c.SecurityName = name) :
    companies.find? (fun x => decide (x.SecurityName = name)) = some c := by
  subst hsplit
  induction pre with
  | nil => simp [List.find?, hc]
  | cons p ps ih =>
    have hp : p.SecurityName ≠ name := hpre p (by simp)
    rw [List.cons_append, List.find?_cons_of_neg _ (by simpa using hp)]
    exact ih (fun x hx => hpre x (by simp [hx]))

theorem find_none (companies : List Company) (name : String)
    (h : ∀ x ∈ companies, x.SecurityName ≠ name) :
    companies.find? (fun x => decide (x.SecurityName = name)) = none := by
  rw [List.find?_eq_none]
  intro x hx
  simpa using h x hx

theorem insert_fresh (stocks : List Stock) (row : Stock)
    (hid : ∀ r ∈ stocks, r.ID ≠ row.ID) (hkey : ∀ r ∈ stocks, sameKey row r = false) :
    insertOnConflictId stocks row = (stocks ++ [row], none) := by
  have h1 : stocks.any (fun r => decide (r.ID ≠ row.ID) && sameKey row r) = false :=
    List.any_eq_false.2 (fun r hr => by rw [hkey r hr, Bool.and_false]; simp)
  have h2 : stocks.any (fun r => decide (r.ID = row.ID)) = false :=
    List.any_eq_false.2 (fun r hr => by simpa using hid r hr)
  rw [insertOnConflictId, h1, h2]
  rfl

/-- C7: for every database and every record with a non-empty `SecurityName`, `write` hands to
`Create` the record with the `Symbol` and the `ID` of the first company of that name when there
is one, and with the empty symbol and 0 when there is none; in both cases the database after
`write` is the one `Create` leaves for that record, and when the table holds no row of the same
key (and its ids come from the sequence) the row is in the table afterwards. -/
theorem C7_resolution (db : DB) (data : Stock) (hname : data.SecurityName ≠ "") :
    (∀ (pre post : List Company) (c : Company), db.companies = pre ++ c :: post →
      (∀ x ∈ pre, x.SecurityName ≠ data.SecurityName) → c.SecurityName = data.SecurityName →
      (write db data Faults.none).submitted = { data with Symbol := c.Symbol, SecurityId := c.ID } ∧
      (write db data Faults.none).lookupErr = none) ∧
    ((∀ x ∈ db.companies, x.SecurityName ≠ data.SecurityName) →
      (write db data Faults.none).submitted = { data with Symbol := "", SecurityId := 0 } ∧
      (write db data Faults.none).lookupErr = some DbError.recordNotFound) ∧
    ((write db data Faults.none).db.stocks =
        (Create db.stocks db.seq (write db data Faults.none).submitted).1 ∧
      (write db data Faults.none).createErr =
        (Create db.stocks db.seq (write db data Faults.none).submitted).2.2.2) ∧
    (data.ID = 0 → (∀ r ∈ db.stocks, r.ID ≤ db.seq) →
      (∀ r ∈ db.stocks, sameKey (write db data Faults.none).submitted r = false) →
      (write db data Faults.none).createErr = none ∧
      (write db data Faults.none).db.stocks =
        db.stocks ++ [{ (write db data Faults.none).submitted with ID := db.seq + 1 }]) := by
  refine ⟨?_, ?_, ⟨rfl, rfl⟩, ?_⟩
  · intro pre post c hsplit hpre hc
    have hf := find_first db.companies pre post c data.SecurityName hsplit hpre hc
    simp [write, Faults.none, companyFirst, hname, hf]
  · intro hnone
    have hf := find_none db.companies data.SecurityName hnone
    simp [write, Faults.none, companyFirst, hname, hf, Company.zero]
  · intro hid hseq hkey
    generalize hsub : (write db data Faults.none).submitted = sub at hkey ⊢
    have hsid : sub.ID = 0 := by rw [← hsub]; exact hid
    have hw : (write db data Faults.none).createErr = (Create db.stocks db.seq sub).2.2.2 ∧
        (write db data Faults.none).db.stocks = (Create db.stocks db.seq sub).1 := by
      rw [← hsub]; exact ⟨rfl, rfl⟩
    rw [hw.1, hw.2]
    have hins := insert_fresh db.stocks { sub with ID := db.seq + 1 }
      (fun r hr => by have := hseq r hr; simp only []; omega)
      (fun r hr => by rw [← hkey r hr]; rfl)
    simp [Create, hsid, hins]

theorem exampleRecord_fields :
    exampleRecord.SecurityName = "ABC Bank Ltd." ∧ exampleRecord.BusinessDate = "2021-06-24" ∧
    exampleRecord.ID = 0 ∧ exampleRecord501.SecurityName = "ABC Bank Ltd." ∧
    exampleRecord501.BusinessDate = "2021-06-24" ∧ exampleRecord501.ID = 0 :=
  ⟨rfl, rfl, rfl, rfl, rfl, rfl⟩

/-- C7, witness: on the example reference store the example record resolves to `ABC`, 1, and
on an empty reference store to the empty symbol and 0; in both cases the row is in the table
afterwards. -/
theorem C7_resolution_witness :
    ((write ⟨exampleCompanies, [], 0⟩ exampleRecord Faults.none).submitted =
        { exampleRecord with Symbol := "ABC", SecurityId := 1 } ∧
      (write ⟨exampleCompanies, [], 0⟩ exampleRecord Faults.none).db.stocks =
        [{ exampleRecord with Symbol := "ABC", SecurityId := 1, ID := 1 }]) ∧
    ((write ⟨[], [], 0⟩ exampleRecord Faults.none).submitted =
        { exampleRecord with Symbol := "", SecurityId := 0 } ∧
      (write ⟨[], [], 0⟩ exampleRecord Faults.none).db.stocks =
        [{ exampleRecord with Symbol := "", SecurityId := 0, ID := 1 }]) := by
  have hn : exampleRecord.SecurityName ≠ "" := by
    rw [exampleRecord_fields.1]; decide
  have h1 := C7_resolution ⟨exampleCompanies, [], 0⟩ exampleRecord hn
  have h2 := C7_resolution ⟨[], [], 0⟩ exampleRecord hn
  have a1 := (h1.1 [] [] ⟨1, "ABC", "ABC Bank Ltd.", "ABC Bank Limited", "A"⟩ rfl
    (by simp) exampleRecord_fields.1.symm).1
  have a2 := (h1.2.2.2 exampleRecord_fields.2.2.1 (by simp) (by simp)).2
  have b1 := (h2.2.1 (by simp)).1
  have b2 := (h2.2.2.2 exampleRecord_fields.2.2.1 (by simp) (by simp)).2
  rw [a1] at a2
  rw [b1] at b2
  exact ⟨⟨a1, a2⟩, ⟨b1, b2⟩⟩

/-! ## The second write of a key (C6) -/

/-- A record of `ID` 0 whose key is already in the table (the ids of which come from the
sequence) is rejected by the unique index and the table stays as it was. -/
theorem Create_existing_key (stocks : List Stock) (seq : Nat) (data old : Stock)
    (hid : data.ID = 0) (hseq : ∀ r ∈ stocks, r.ID ≤ seq) (hold : old ∈ stocks)
    (hkey : sameKey data old = true) :
    (Create stocks seq data).1 = stocks ∧
    (Create stocks seq data).2.2.2 = some DbError.uniqueViolation := by
  have h1 : stocks.any (fun r => decide (r.ID ≠ seq + 1) &&
      sameKey { data with ID := seq + 1 } r) = true := by
    rw [List.any_eq_true]
    refine ⟨old, hold, ?_⟩
    have := hseq old hold
    have hk : sameKey { data with ID := seq + 1 } old = true := hkey
    simp only [hk, Bool.and_true, decide_eq_true_eq]
    omega
  have hins : insertOnConflictId stocks { data with ID := seq + 1 } =
      (stocks, some DbError.uniqueViolation) := by
    rw [insertOnConflictId, if_pos h1]
  unfold Create
  simp only [hid, if_true]
  rw [hins]
  exact ⟨rfl, rfl⟩

/-- C6 (the code differs): the example record is written, then the same record with the close
price 501.  The first insert succeeds; the second hits the unique index on (`BusinessDate`,
`Symbol`, `SecurityName`), which `ON CONFLICT ("id")` does not cover: it fails, the error is
printed, and the one row of that key keeps the first close price, 500.  The same holds for every
table and every record whose key is already in it. -/
theorem C6_second_write_rejected :
    (write ⟨exampleCompanies, [], 0⟩ exampleRecord Faults.none).createErr = none ∧
    (write (write ⟨exampleCompanies, [], 0⟩ exampleRecord Faults.none).db exampleRecord501
      Faults.none).createErr = some DbError.uniqueViolation ∧
    (write (write ⟨exampleCompanies, [], 0⟩ exampleRecord Faults.none).db exampleRecord501
      Faults.none).db.stocks = [{ exampleRecord with ID := 1, Symbol := "ABC", SecurityId := 1 }] ∧
    exampleRecord.ClosePrice = Float64.ofNat 500 ∧
    exampleRecord501.ClosePrice = Float64.ofNat 501 ∧
    sameKey exampleRecord exampleRecord501 = true ∧
    (∀ (stocks : List Stock) (seq : Nat) (data old : Stock), data.ID = 0 →
      (∀ r ∈ stocks, r.ID ≤ seq) → old ∈ stocks → sameKey data old = true →
      (Create stocks seq data).1 = stocks ∧
      (Create stocks seq data).2.2.2 = some DbError.uniqueViolation) := by
  refine ⟨by rfl, by rfl, by rfl, by rfl, by rfl, by rfl, ?_⟩
  intro stocks seq data old hid hseq hold hkey
  exact Create_existing_key stocks seq data old hid hseq hold hkey

set_option maxRecDepth 100000 in
/-- The example record is the record the row loop builds from the example row. -/
theorem exampleRecord_eq :
    stamp (tdForEach exampleCells 0 Stock.zero) "2021-06-24" "15:00" = exampleRecord := by
  have h1 : convInt "120" = 120 := by decide
  have h2 : convFloat "505.0" = Float64.ofNat 505 := by rfl
  have h3 : convFloat "495.0" = Float64.ofNat 495 := by rfl
  have h4 : convFloat "500.0" = Float64.ofNat 500 := by rfl
  have h5 : convFloat "10000" = Float64.ofNat 10000 := by rfl
  have h6 : convFloat "5000000" = Float64.ofNat 5000000 := by rfl
  have h7 : convFloat "498.0" = Float64.ofNat 498 := by rfl
  rw [tdForEach_eq]
  simp only [exampleCells, List.getD_cons_succ, List.getD_cons_zero, h1, h2, h3, h4, h5, h6, h7]
  rfl

/-! ## Lemmas on the goroutines of a page -/

theorem total_append (f : Pc → Nat) (tasks : List (Stock × Pc)) (t : Stock × Pc) :
    total f (tasks ++ [t]) = total f tasks + f t.2 := by
  simp [total]

theorem total_set (f : Pc → Nat) (tasks : List (Stock × Pc)) (i : Nat) (d d1 : Stock) (a b : Pc)
    (h : tasks[i]? = some (d, a)) :
    total f (tasks.set i (d1, b)) + f a = total f tasks + f b := by
  induction tasks generalizing i with
  | nil => simp at h
  | cons t ts ih =>
    cases i with
    | zero =>
      simp only [List.getElem?_cons_zero, Option.some.injEq] at h
      subst h
      simp only [total, List.set_cons_zero, List.map_cons, List.sum_cons]
      omega
    | succ i =>
      simp only [List.getElem?_cons_succ] at h
      have := ih i h
      simp only [total, List.set_cons_succ, List.map_cons, List.sum_cons] at this ⊢
      omega

theorem le_total (f : Pc → Nat) (tasks : List (Stock × Pc)) (i : Nat) (t : Stock × Pc)
    (h : tasks[i]? = some t) : f t.2 ≤ total f tasks := by
  induction tasks generalizing i with
  | nil => simp at h
  | cons x xs ih =>
    cases i with
    | zero =>
      simp only [List.getElem?_cons_zero, Option.some.injEq] at h
      subst h
      simp [total]
    | succ i =>
      simp only [List.getElem?_cons_succ] at h
      have := ih i h
      simp only [total, List.map_cons, List.sum_cons] at this ⊢
      omega

theorem exists_of_total_pos (f : Pc → Nat) (tasks : List (Stock × Pc)) (h : 0 < total f tasks) :
    ∃ (i : Nat) (d : Stock) (pc : Pc), tasks[i]? = some (d, pc) ∧ 0 < f pc := by
  induction tasks with
  | nil => simp [total] at h
  | cons x xs ih =>
    by_cases hx : 0 < f x.2
    · exact ⟨0, x.1, x.2, by simp, hx⟩
    · have : 0 < total f xs := by
        simp only [total, List.map_cons, List.sum_cons] at h ⊢
        omega
      obtain ⟨i, d, pc, hi, hp⟩ := ih this
      exact ⟨i + 1, d, pc, by simpa using hi, hp⟩

/-- What a step that happens does: the row loop starts a goroutine, or goroutine `i` moves from
one stage to the next, or `wg.Wait()` returns. -/
theorem step_cases (s s1 : PageState) (a : Action) (h : step s a = Outcome.ok s1) :
    (∃ d rest, a = Action.spawn ∧ s.pending = d :: rest ∧
      s1 = { s with pending := rest, wg := s.wg + 1, tasks := s.tasks ++ [(d, Pc.lockWait)] }) ∨
    (∃ (i : Nat) (d : Stock), a = Action.lock i ∧ s.tasks[i]? = some (d, Pc.lockWait) ∧ s.mutex = false ∧
      s1 = setPc { s with mutex := true } i d Pc.holding) ∨
    (∃ (i : Nat) (f : Faults) (d : Stock), a = Action.body i f ∧ s.tasks[i]? = some (d, Pc.holding) ∧
      s1 = setPc { s with db := (write s.db d f).db } i d Pc.unlocking) ∨
    (∃ (i : Nat) (d : Stock), a = Action.unlock i ∧ s.tasks[i]? = some (d, Pc.unlocking) ∧ s.mutex = true ∧
      s1 = setPc { s with mutex := false } i d Pc.signalling) ∨
    (∃ (i : Nat) (d : Stock), a = Action.done i ∧ s.tasks[i]? = some (d, Pc.signalling) ∧ 1 ≤ s.wg ∧
      s1 = setPc { s with wg := s.wg - 1 } i d Pc.finished) ∨
    (a = Action.wait ∧ s.pending = [] ∧ s.returned = false ∧ s.wg = 0 ∧
      s1 = { s with returned := true }) := by
  cases a with
  | spawn =>
    simp only [step] at h
    split at h
    · cases h
    · rename_i d rest hp
      injection h with h
      exact Or.inl ⟨d, rest, rfl, hp, h.symm⟩
  | lock i =>
    simp only [step] at h
    split at h
    · rename_i d ht
      split at h
      · cases h
      · rename_i hm
        injection h with h
        exact Or.inr (Or.inl ⟨i, d, rfl, ht, by simpa using hm, h.symm⟩)
    · cases h
  | body i f =>
    simp only [step] at h
    split at h
    · rename_i d ht
      injection h with h
      exact Or.inr (Or.inr (Or.inl ⟨i, f, d, rfl, ht, h.symm⟩))
    · cases h
  | unlock i =>
    simp only [step] at h
    split at h
    · rename_i d ht
      split at h
      · rename_i hm
        injection h with h
        exact Or.inr (Or.inr (Or.inr (Or.inl ⟨i, d, rfl, ht, hm, h.symm⟩)))
      · cases h
    · cases h
  | done i =>
    simp only [step] at h
    split at h
    · rename_i d ht
      split at h
      · rename_i hw
        injection h with h
        exact Or.inr (Or.inr (Or.inr (Or.inr (Or.inl ⟨i, d, rfl, ht, hw, h.symm⟩))))
      · cases h
    · cases h
  | wait =>
    simp only [step] at h
    split at h
    · rename_i hp
      split at h
      · rename_i hw
        injection h with h
        exact Or.inr (Or.inr (Or.inr (Or.inr (Or.inr ⟨rfl, hp.1, hp.2, hw, h.symm⟩))))
      · cases h
    · cases h

theorem step_inv (s s1 : PageState) (a : Action) (hinv : Inv s) (h : step s a = Outcome.ok s1) :
    Inv s1 := by
  obtain ⟨h1, h2, h3⟩ := hinv
  rcases step_cases s s1 a h with ⟨d, rest, -, hp, rfl⟩ | ⟨i, d, -, ht, hm, rfl⟩ |
    ⟨i, f, d, -, ht, rfl⟩ | ⟨i, d, -, ht, hm, rfl⟩ | ⟨i, d, -, ht, hw, rfl⟩ |
    ⟨-, hp, hr, hw, rfl⟩
  · refine ⟨?_, ?_, ?_⟩
    · simp only [total_append, unfinished, h1]
      simp
    · simp only [total_append, critical]
      simpa using h2
    · intro hr
      have := (h3 hr).1
      rw [hp] at this
      cases this
  · have e1 := total_set unfinished s.tasks i d d Pc.lockWait Pc.holding ht
    have e2 := total_set critical s.tasks i d d Pc.lockWait Pc.holding ht
    simp only [unfinished, critical] at e1 e2
    simp only [hm] at h2
    refine ⟨?_, ?_, ?_⟩
    · simp only [setPc, h1]; simp at e1; omega
    · simp only [setPc]; simp at e2 h2 ⊢; omega
    · intro hr
      have := h3 hr
      simp only [setPc]
      refine ⟨this.1, ?_⟩
      simp at e1; omega
  · have e1 := total_set unfinished s.tasks i d d Pc.holding Pc.unlocking ht
    have e2 := total_set critical s.tasks i d d Pc.holding Pc.unlocking ht
    simp only [unfinished, critical] at e1 e2
    refine ⟨?_, ?_, ?_⟩
    · simp only [setPc, h1]; simp at e1; omega
    · simp only [setPc]; simp at e2; rw [← h2]; omega
    · intro hr
      have := h3 hr
      simp only [setPc]
      refine ⟨this.1, ?_⟩
      simp at e1; omega
  · have e1 := total_set unfinished s.tasks i d d Pc.unlocking Pc.signalling ht
    have e2 := total_set critical s.tasks i d d Pc.unlocking Pc.signalling ht
    simp only [unfinished, critical] at e1 e2
    simp only [hm] at h2
    refine ⟨?_, ?_, ?_⟩
    · simp only [setPc, h1]; simp at e1; omega
    · simp only [setPc]; simp at e2 h2 ⊢; omega
    · intro hr
      have := h3 hr
      simp only [setPc]
      refine ⟨this.1, ?_⟩
      simp at e1; omega
  · have e1 := total_set unfinished s.tasks i d d Pc.signalling Pc.finished ht
    have e2 := total_set critical s.tasks i d d Pc.signalling Pc.finished ht
    simp only [unfinished, critical] at e1 e2
    refine ⟨?_, ?_, ?_⟩
    · simp only [setPc, h1]; simp at e1; omega
    · simp only [setPc]; simp at e2; rw [← h2]; omega
    · intro hr
      have := h3 hr
      simp only [setPc]
      refine ⟨this.1, ?_⟩
      simp at e1; omega
  · refine ⟨h1, h2, ?_⟩
    intro _
    refine ⟨hp, ?_⟩
    show total unfinished s.tasks = 0
    rw [hw] at h1
    omega

theorem step_no_abort (s : PageState) (a : Action) (hinv : Inv s) : step s a ≠ Outcome.abort := by
  obtain ⟨h1, h2, _⟩ := hinv
  intro h
  cases a with
  | spawn =>
    simp only [step] at h
    split at h <;> cases h
  | lock i =>
    simp only [step] at h
    split at h
    · split at h <;> cases h
    · cases h
  | body i f =>
    simp only [step] at h
    split at h <;> cases h
  | unlock i =>
    simp only [step] at h
    split at h
    · rename_i d ht
      split at h
      · cases h
      · rename_i hm
        have := le_total critical s.tasks i _ ht
        simp only [critical] at this
        simp only [hm] at h2
        simp at this h2
        omega
    · cases h
  | done i =>
    simp only [step] at h
    split at h
    · rename_i d ht
      split at h
      · cases h
      · rename_i hw
        have := le_total unfinished s.tasks i _ ht
        simp only [unfinished] at this
        simp at this
        omega
    · cases h
  | wait =>
    simp only [step] at h
    split at h
    · split at h <;> cases h
    · cases h

theorem step_pageSteps (s s1 : PageState) (a : Action) (h : step s a = Outcome.ok s1) :
    pageSteps s1 + 1 = pageSteps s ∧
    s1.tasks.length + s1.pending.length = s.tasks.length + s.pending.length := by
  rcases step_cases s s1 a h with ⟨d, rest, -, hp, rfl⟩ | ⟨i, d, -, ht, hm, rfl⟩ |
    ⟨i, f, d, -, ht, rfl⟩ | ⟨i, d, -, ht, hm, rfl⟩ | ⟨i, d, -, ht, hw, rfl⟩ |
    ⟨-, hp, hr, hw, rfl⟩
  · have e : total stepsLeft (s.tasks ++ [(d, Pc.lockWait)]) = total stepsLeft s.tasks + 4 :=
      total_append _ _ _
    have hl : s.pending.length = rest.length + 1 := by rw [hp]; rfl
    simp only [pageSteps, e, hl, List.length_append, List.length_singleton]
    omega
  · have e : total stepsLeft (s.tasks.set i (d, Pc.holding)) + 4 = total stepsLeft s.tasks + 3 :=
      total_set stepsLeft s.tasks i d d Pc.lockWait Pc.holding ht
    refine ⟨?_, ?_⟩
    · show 5 * s.pending.length + total stepsLeft (s.tasks.set i (d, Pc.holding)) +
          (if s.returned then 0 else 1) + 1 =
        5 * s.pending.length + total stepsLeft s.tasks + (if s.returned then 0 else 1)
      omega
    · show (s.tasks.set i (d, Pc.holding)).length + s.pending.length =
        s.tasks.length + s.pending.length
      rw [List.length_set]
  · have e : total stepsLeft (s.tasks.set i (d, Pc.unlocking)) + 3 = total stepsLeft s.tasks + 2 :=
      total_set stepsLeft s.tasks i d d Pc.holding Pc.unlocking ht
    refine ⟨?_, ?_⟩
    · show 5 * s.pending.length + total stepsLeft (s.tasks.set i (d, Pc.unlocking)) +
          (if s.returned then 0 else 1) + 1 =
        5 * s.pending.length + total stepsLeft s.tasks + (if s.returned then 0 else 1)
      omega
    · show (s.tasks.set i (d, Pc.unlocking)).length + s.pending.length =
        s.tasks.length + s.pending.length
      rw [List.length_set]
  · have e : total stepsLeft (s.tasks.set i (d, Pc.signalling)) + 2 = total stepsLeft s.tasks + 1 :=
      total_set stepsLeft s.tasks i d d Pc.unlocking Pc.signalling ht
    refine ⟨?_, ?_⟩
    · show 5 * s.pending.length + total stepsLeft (s.tasks.set i (d, Pc.signalling)) +
          (if s.returned then 0 else 1) + 1 =
        5 * s.pending.length + total stepsLeft s.tasks + (if s.returned then 0 else 1)
      omega
    · show (s.tasks.set i (d, Pc.signalling)).length + s.pending.length =
        s.tasks.length + s.pending.length
      rw [List.length_set]
  · have e : total stepsLeft (s.tasks.set i (d, Pc.finished)) + 1 = total stepsLeft s.tasks + 0 :=
      total_set stepsLeft s.tasks i d d Pc.signalling Pc.finished ht
    refine ⟨?_, ?_⟩
    · show 5 * s.pending.length + total stepsLeft (s.tasks.set i (d, Pc.finished)) +
          (if s.returned then 0 else 1) + 1 =
        5 * s.pending.length + total stepsLeft s.tasks + (if s.returned then 0 else 1)
      omega
    · show (s.tasks.set i (d, Pc.finished)).length + s.pending.length =
        s.tasks.length + s.pending.length
      rw [List.length_set]
  · simp only [pageSteps, hr]
    simp

/-- A page that still has steps to make can make one: no state is a deadlock. -/
theorem step_progress (s : PageState) (hinv : Inv s) (hpos : 0 < pageSteps s) :
    ∃ a s1, step s a = Outcome.ok s1 := by
  obtain ⟨h1, h2, h3⟩ := hinv
  cases hp : s.pending with
  | cons d rest => exact ⟨Action.spawn, _, by simp only [step, hp]; rfl⟩
  | nil =>
    by_cases ht : 0 < total stepsLeft s.tasks
    · obtain ⟨i, d, pc, hi, hpc⟩ := exists_of_total_pos stepsLeft s.tasks ht
      have hu := le_total unfinished s.tasks i _ hi
      have hc := le_total critical s.tasks i _ hi
      cases pc with
      | lockWait =>
        cases hm : s.mutex with
        | false => exact ⟨Action.lock i, _, by simp only [step, hi, hm]; rfl⟩
        | true =>
          simp only [hm] at h2
          obtain ⟨j, d2, pc2, hj, hpc2⟩ := exists_of_total_pos critical s.tasks (by simp at h2; omega)
          cases pc2 with
          | holding => exact ⟨Action.body j Faults.none, _, by simp only [step, hj]; rfl⟩
          | unlocking => exact ⟨Action.unlock j, _, by simp only [step, hj, hm]; rfl⟩
          | lockWait => simp [critical] at hpc2
          | signalling => simp [critical] at hpc2
          | finished => simp [critical] at hpc2
      | holding => exact ⟨Action.body i Faults.none, _, by simp only [step, hi]; rfl⟩
      | unlocking =>
        have hm : s.mutex = true := by
          cases hm : s.mutex with
          | true => rfl
          | false =>
            simp only [hm] at h2
            simp [critical] at hc h2
            omega
        exact ⟨Action.unlock i, _, by simp only [step, hi, hm]; rfl⟩
      | signalling =>
        have hw : s.wg ≥ 1 := by
          simp [unfinished] at hu
          omega
        exact ⟨Action.done i, _, by simp only [step, hi, hw]; rfl⟩
      | finished => simp [stepsLeft] at hpc
    · have hr : s.returned = false := by
        cases hr : s.returned with
        | false => rfl
        | true =>
          simp only [pageSteps, hp, hr] at hpos
          simp at hpos
          omega
      have hz : total unfinished s.tasks = 0 := by
        by_contra hne
        obtain ⟨i, d, pc, hi, hpc⟩ := exists_of_total_pos unfinished s.tasks (by omega)
        have := le_total stepsLeft s.tasks i _ hi
        cases pc <;> simp [unfinished, stepsLeft] at hpc this <;> omega
      have hw : s.wg = 0 := by rw [h1, hz]; rfl
      exact ⟨Action.wait, _, by simp only [step, hp, hr, hw]; rfl⟩

theorem total_eq_zero (f : Pc → Nat) (tasks : List (Stock × Pc)) :
    total f tasks = 0 ↔ ∀ t ∈ tasks, f t.2 = 0 := by
  induction tasks with
  | nil => simp [total]
  | cons x xs ih =>
    simp only [total, List.map_cons, List.sum_cons, List.mem_cons, forall_eq_or_imp] at ih ⊢
    rw [← ih]
    omega

theorem atStage_append (p : Pc → Nat) (s : PageState) (d : Stock) (rest : List Stock) (i : Nat)
    (hp : p Pc.lockWait = 0) :
    atStage p ⟨rest, s.returned, s.wg + 1, s.mutex, s.tasks ++ [(d, Pc.lockWait)], s.db⟩ i =
      atStage p s i := by
  simp only [atStage]
  by_cases hi : i < s.tasks.length
  · rw [List.getElem?_append_left hi]
  · rw [List.getElem?_append_right (by omega), List.getElem?_eq_none (by omega : s.tasks.length ≤ i)]
    cases hk : i - s.tasks.length with
    | zero => simp [hp]
    | succ k => simp

theorem atStage_set (p : Pc → Nat) (s : PageState) (tasks : List (Stock × Pc)) (j i : Nat)
    (d : Stock) (a b : Pc) (hs : s.tasks = tasks.set j (d, b)) (hj : tasks[j]? = some (d, a)) :
    atStage p s i = if i = j then p b
      else match tasks[i]? with
        | some t => p t.2
        | none => 0 := by
  have hlt : j < tasks.length := by
    by_contra hc
    rw [List.getElem?_eq_none (by omega)] at hj
    cases hj
  simp only [atStage, hs]
  by_cases hij : i = j
  · subst hij
    rw [List.getElem?_set_self hlt]
    simp
  · rw [List.getElem?_set_ne (Ne.symm hij)]
    simp [hij]

/-- A step that happens adds one to the number of `Unlock` calls, of `Done` calls, of
goroutine `i` exactly when it is that call. -/
theorem step_atStage (s s1 : PageState) (a : Action) (i : Nat) (h : step s a = Outcome.ok s1) :
    atStage hasUnlocked s1 i = atStage hasUnlocked s i + (if a = Action.unlock i then 1 else 0) ∧
    atStage hasSignalled s1 i = atStage hasSignalled s i + (if a = Action.done i then 1 else 0) := by
  rcases step_cases s s1 a h with ⟨d, rest, rfl, hp, rfl⟩ | ⟨j, d, rfl, ht, hm, rfl⟩ |
    ⟨j, f, d, rfl, ht, rfl⟩ | ⟨j, d, rfl, ht, hm, rfl⟩ | ⟨j, d, rfl, ht, hw, rfl⟩ |
    ⟨rfl, hp, hr, hw, rfl⟩
  · rw [atStage_append _ _ _ _ _ rfl, atStage_append _ _ _ _ _ rfl]
    simp
  · rw [atStage_set hasUnlocked _ s.tasks j i d _ _ rfl ht,
      atStage_set hasSignalled _ s.tasks j i d _ _ rfl ht]
    simp only [atStage]
    by_cases hij : i = j
    · subst hij; simp [ht, hasUnlocked, hasSignalled]
    · simp [hij]
  · rw [atStage_set hasUnlocked _ s.tasks j i d _ _ rfl ht,
      atStage_set hasSignalled _ s.tasks j i d _ _ rfl ht]
    simp only [atStage]
    by_cases hij : i = j
    · subst hij; simp [ht, hasUnlocked, hasSignalled]
    · simp [hij]
  · rw [atStage_set hasUnlocked _ s.tasks j i d _ _ rfl ht,
      atStage_set hasSignalled _ s.tasks j i d _ _ rfl ht]
    simp only [atStage]
    by_cases hij : i = j
    · subst hij; simp [ht, hasUnlocked, hasSignalled]
    · have : ¬ j = i := fun e => hij e.symm
      simp [hij, this]
  · rw [atStage_set hasUnlocked _ s.tasks j i d _ _ rfl ht,
      atStage_set hasSignalled _ s.tasks j i d _ _ rfl ht]
    simp only [atStage]
    by_cases hij : i = j
    · subst hij; simp [ht, hasUnlocked, hasSignalled]
    · have : ¬ j = i := fun e => hij e.symm
      simp [hij, this]
  · simp [atStage]

theorem atStage_le_one (s : PageState) (i : Nat) :
    atStage hasUnlocked s i ≤ 1 ∧ atStage hasSignalled s i ≤ 1 := by
  simp only [atStage]
  split
  · simp only [hasUnlocked, hasSignalled]
    constructor <;> split <;> omega
  · simp

/-! ## Lemmas on the runs of a page -/

theorem run_ok (s s2 : PageState) (acts : List Action) (hinv : Inv s)
    (h : run s acts = Outcome.ok s2) :
    Inv s2 ∧ acts.length + pageSteps s2 = pageSteps s ∧
    s2.tasks.length + s2.pending.length = s.tasks.length + s.pending.length ∧
    ∀ i, atStage hasUnlocked s2 i = atStage hasUnlocked s i + acts.count (Action.unlock i) ∧
      atStage hasSignalled s2 i = atStage hasSignalled s i + acts.count (Action.done i) := by
  induction acts generalizing s with
  | nil =>
    simp only [run, Outcome.ok.injEq] at h
    subst h
    simp [hinv]
  | cons a rest ih =>
    rw [run] at h
    split at h
    · rename_i s1 hs1
      obtain ⟨i1, i2, i3, i4⟩ := ih s1 (step_inv s s1 a hinv hs1) h
      obtain ⟨m1, m2⟩ := step_pageSteps s s1 a hs1
      refine ⟨i1, by simp only [List.length_cons]; omega, by omega, ?_⟩
      intro i
      obtain ⟨c1, c2⟩ := step_atStage s s1 a i hs1
      obtain ⟨d1, d2⟩ := i4 i
      rw [d1, d2, c1, c2, List.count_cons, List.count_cons]
      simp only [beq_iff_eq]
      constructor <;> omega
    · cases h
    · cases h

theorem run_no_abort (s : PageState) (acts : List Action) (hinv : Inv s) :
    run s acts ≠ Outcome.abort := by
  induction acts generalizing s with
  | nil => simp [run]
  | cons a rest ih =>
    rw [run]
    split
    · rename_i s1 hs1
      exact ih s1 (step_inv s s1 a hinv hs1)
    · simp
    · rename_i hs1
      exact absurd hs1 (step_no_abort s a hinv)

/-- From every state the page can run to its end. -/
theorem run_complete (n : Nat) (s : PageState) (hinv : Inv s) (hn : pageSteps s = n) :
    ∃ more s1, run s more = Outcome.ok s1 ∧ pageSteps s1 = 0 := by
  induction n generalizing s with
  | zero => exact ⟨[], s, rfl, hn⟩
  | succ n ih =>
    obtain ⟨a, s1, hs1⟩ := step_progress s hinv (by omega)
    obtain ⟨more, s2, hr, hz⟩ := ih s1 (step_inv s s1 a hinv hs1)
      (by have := (step_pageSteps s s1 a hs1).1; omega)
    exact ⟨a :: more, s2, by rw [run, hs1]; exact hr, hz⟩

theorem ended_of_zero (s : PageState) (hinv : Inv s) (hz : pageSteps s = 0) :
    s.returned = true ∧ s.wg = 0 ∧ s.mutex = false ∧ s.pending = [] ∧
    ∀ t ∈ s.tasks, t.2 = Pc.finished := by
  obtain ⟨h1, h2, h3⟩ := hinv
  simp only [pageSteps] at hz
  have hr : s.returned = true := by
    cases hr : s.returned with
    | true => rfl
    | false => simp [hr] at hz
  have hfin : ∀ t ∈ s.tasks, t.2 = Pc.finished := by
    have ht : total stepsLeft s.tasks = 0 := by omega
    intro t ht1
    have := (total_eq_zero stepsLeft s.tasks).1 ht t ht1
    cases hpc : t.2 <;> simp [hpc, stepsLeft] at this ⊢
  have hc : total critical s.tasks = 0 :=
    (total_eq_zero critical s.tasks).2 (fun t ht => by simp [hfin t ht, critical])
  refine ⟨hr, ?_, ?_, (h3 hr).1, hfin⟩
  · rw [h1, (h3 hr).2]; rfl
  · cases hm : s.mutex with
    | false => rfl
    | true => rw [hc, hm] at h2; simp at h2

theorem pageStart_inv (records : List Stock) (db : DB) : Inv (pageStart records db) := by
  simp [Inv, pageStart, total]

/-! ## The write tasks of a page (C9) -/

theorem rowCallback_wg (len : Nat) (st st1 : LoopState) (i : Nat) (row : Row)
    (h : rowCallback len st i row = Except.ok st1) (hst : st.wg = st.tasks.length) :
    st1.wg = st1.tasks.length := by
  unfold rowCallback at h
  simp only [] at h
  generalize (if inWindow len i = true then tdForEach row.td 0 Stock.zero else Stock.zero) = data
    at h
  generalize (if (!inWindow len i && decide (i = 0)) = true then
    stringsSplit (stringsTrimPrefix row.pullLeft "As of ") nbsp else st.s) = s at h
  split at h
  · split at h
    · cases h
    · cases h
    · injection h with h
      subst h
      simp [hst]
  · injection h with h
    subst h
    exact hst

theorem rowForEach_wg (len : Nat) (rs : List Row) (i : Nat) (st st1 : LoopState)
    (h : rowForEach len rs i st = Except.ok st1) (hst : st.wg = st.tasks.length) :
    st1.wg = st1.tasks.length := by
  induction rs generalizing i st with
  | nil =>
    rw [rowForEach] at h
    injection h with h
    subst h
    exact hst
  | cons row rest ih =>
    rw [rowForEach] at h
    split at h
    · cases h
    · rename_i st2 h2
      exact ih (i + 1) st2 h (rowCallback_wg len st st2 i row h2 hst)

/-- C9: for every page (the records its row loop emits), every database and every sequence of
steps of the row loop and of the `write` goroutines, whatever database calls fail: no step
aborts the program; the counter of the wait group is at every moment the number of goroutines
that have not ended and the mutex is held by at most one of them; every goroutine calls
`mutex.Unlock()` and `wg.Done()` at most once, and exactly once when the page has ended; a
goroutine in the body of `write` reaches its deferred calls for every outcome of the lookup and
of the insert; no state is a deadlock and every run can be continued to the end of the page,
which comes after exactly `5 n + 1` steps for `n` records; at the end `wg.Wait()` has
returned, every goroutine has ended, the counter is 0 and the mutex is free.  The row loop
makes one `wg.Add(1)` per record it emits. -/
theorem C9_write_tasks (records : List Stock) (db : DB) (acts : List Action) :
    run (pageStart records db) acts ≠ Outcome.abort ∧
    (∀ s, run (pageStart records db) acts = Outcome.ok s →
      Inv s ∧
      acts.length + pageSteps s = 5 * records.length + 1 ∧
      s.tasks.length + s.pending.length = records.length ∧
      (∀ i, acts.count (Action.unlock i) = atStage hasUnlocked s i ∧
        acts.count (Action.done i) = atStage hasSignalled s i ∧
        acts.count (Action.unlock i) ≤ 1 ∧ acts.count (Action.done i) ≤ 1) ∧
      (∀ (i : Nat) (d : Stock) (f : Faults), s.tasks[i]? = some (d, Pc.holding) →
        step s (Action.body i f) =
          Outcome.ok (setPc { s with db := (write s.db d f).db } i d Pc.unlocking)) ∧
      (0 < pageSteps s → ∃ a s1, step s a = Outcome.ok s1) ∧
      (∃ more s1, run s more = Outcome.ok s1 ∧ pageSteps s1 = 0) ∧
      (pageSteps s = 0 →
        s.returned = true ∧ s.wg = 0 ∧ s.mutex = false ∧ s.tasks.length = records.length ∧
        (∀ t ∈ s.tasks, t.2 = Pc.finished) ∧
        ∀ i, i < records.length →
          acts.count (Action.unlock i) = 1 ∧ acts.count (Action.done i) = 1)) ∧
    (∀ (rows : List Row) (st : LoopState), onHTMLRows rows = Except.ok st →
      st.wg = st.tasks.length) := by
  have hinv := pageStart_inv records db
  refine ⟨run_no_abort _ acts hinv, ?_, ?_⟩
  · intro s hs
    obtain ⟨i1, i2, i3, i4⟩ := run_ok _ s acts hinv hs
    have hstart : pageSteps (pageStart records db) = 5 * records.length + 1 := by
      simp [pageSteps, pageStart, total]
    have hlen : s.tasks.length + s.pending.length = records.length := by
      rw [i3]; simp [pageStart]
    have hcount : ∀ i, acts.count (Action.unlock i) = atStage hasUnlocked s i ∧
        acts.count (Action.done i) = atStage hasSignalled s i := by
      intro i
      obtain ⟨c1, c2⟩ := i4 i
      have z1 : atStage hasUnlocked (pageStart records db) i = 0 := by simp [atStage, pageStart]
      have z2 : atStage hasSignalled (pageStart records db) i = 0 := by simp [atStage, pageStart]
      rw [z1] at c1
      rw [z2] at c2
      omega
    refine ⟨i1, by omega, hlen, ?_, ?_, step_progress s i1, run_complete _ s i1 rfl, ?_⟩
    · intro i
      obtain ⟨c1, c2⟩ := hcount i
      obtain ⟨b1, b2⟩ := atStage_le_one s i
      exact ⟨c1, c2, by omega, by omega⟩
    · intro i d f hi
      simp only [step, hi]
    · intro hz
      obtain ⟨e1, e2, e3, e4, e5⟩ := ended_of_zero s i1 hz
      have hl : s.tasks.length = records.length := by
        rw [e4] at hlen; simpa using hlen
      refine ⟨e1, e2, e3, hl, e5, ?_⟩
      intro i hi
      obtain ⟨c1, c2⟩ := hcount i
      have hlt : i < s.tasks.length := by omega
      have hmem : s.tasks[i] ∈ s.tasks := List.getElem_mem _
      have hpc := e5 _ hmem
      have hget : s.tasks[i]? = some s.tasks[i] := List.getElem?_eq_getElem hlt
      rw [c1, c2]
      simp [atStage, hget, hpc, hasUnlocked, hasSignalled]
  · intro rows st h
    exact rowForEach_wg _ rows 0 _ st h rfl

/-- C9, witness: a page of two records; the insert of the second goroutine to run loses its
connection, the other write goes through; the page ends after 11 steps with the counter at 0,
the mutex free and the row of the other record in the table. -/
theorem C9_write_tasks_witness :
    run (pageStart [exampleRecord, { exampleRecord with SecurityName := "XYZ Ltd." }]
        ⟨exampleCompanies, [], 0⟩)
      [Action.spawn, Action.spawn, Action.lock 1, Action.body 1 ⟨false, true⟩, Action.unlock 1,
        Action.lock 0, Action.done 1, Action.body 0 Faults.none, Action.unlock 0, Action.done 0,
        Action.wait] ≠ Outcome.abort ∧
    ∃ s, run (pageStart [exampleRecord, { exampleRecord with SecurityName := "XYZ Ltd." }]
        ⟨exampleCompanies, [], 0⟩)
      [Action.spawn, Action.spawn, Action.lock 1, Action.body 1 ⟨false, true⟩, Action.unlock 1,
        Action.lock 0, Action.done 1, Action.body 0 Faults.none, Action.unlock 0, Action.done 0,
        Action.wait] = Outcome.ok s ∧
      s.returned = true ∧ s.wg = 0 ∧ s.mutex = false ∧
      s.db.stocks = [{ exampleRecord with ID := 1, Symbol := "ABC", SecurityId := 1 }] := by
  refine ⟨(C9_write_tasks _ _ _).1, _, by rfl, by rfl, by rfl, by rfl, by rfl⟩

end Nepse
